import Mathlib

/-!
Verification of the ball-simulation core (`logic.py`) against its
natural-language specification.

The Python module is shallowly embedded over exact rationals (`ℚ`): Python
floats are modelled with ideal real-number semantics, `%` on floats with a
positive modulus is `pymod x m = x - m * ⌊x / m⌋`, and `int()` truncates
toward zero.  The one non-rational primitive, `math.hypot` (used through
`Vec2.length`), is modelled as an abstract norm function `len : Vec2 → ℚ`
carried in the simulation state; every theorem below holds for an arbitrary
norm, hence in particular for the Euclidean one.  Randomness
(`random.Random`) and the injectable refill generator are modelled as oracle
streams consumed through an index, which is faithful for every property
stated here because no claim depends on the generated values themselves.
-/

/-- 2D vector with rational coordinates, embedding the `Vec2` dataclass. -/
structure Vec2 where
  x : ℚ
  y : ℚ
deriving DecidableEq

/-- Embeds `Vec2.__add__`. -/
def Vec2.add (a b : Vec2) : Vec2 := ⟨a.x + b.x, a.y + b.y⟩

/-- Embeds `Vec2.__sub__`. -/
def Vec2.sub (a b : Vec2) : Vec2 := ⟨a.x - b.x, a.y - b.y⟩

/-- Embeds `Vec2.__mul__` (scale by a scalar). -/
def Vec2.smul (a : Vec2) (s : ℚ) : Vec2 := ⟨a.x * s, a.y * s⟩

/-- RGB color triple, each channel a rational (normalized [0,1] in use). -/
def Color : Type := ℚ × ℚ × ℚ

instance : DecidableEq Color := by unfold Color; infer_instance

/-- Embeds the `Ball` dataclass. -/
structure Ball where
  id : ℕ
  position : Vec2
  velocity : Vec2
  radius : ℚ
  color : Color
  stored_velocity : Vec2
deriving DecidableEq

/-- Embeds the `DeleteZone` dataclass. -/
structure DeleteZone where
  min_x : ℚ
  min_y : ℚ
  max_x : ℚ
  max_y : ℚ
deriving DecidableEq

/-- Embeds `DeleteZone.contains`: inclusive axis-aligned containment. -/
def DeleteZone.contains (z : DeleteZone) (p : Vec2) : Bool :=
  decide (z.min_x ≤ p.x) && decide (p.x ≤ z.max_x) &&
  decide (z.min_y ≤ p.y) && decide (p.y ≤ z.max_y)

/-- Python float `%` with its floor-division semantics:
`x % m = x - m * floor (x / m)` (exact for ideal reals, `m > 0` in use). -/
def pymod (x m : ℚ) : ℚ := x - m * ⌊x / m⌋

/-- Python `int()` on a rational: truncation toward zero. -/
def truncQ (x : ℚ) : ℤ := if 0 ≤ x then ⌊x⌋ else ⌈x⌉

/-- Embeds `colorsys.rgb_to_hsv` (CPython, exact-rational reading). -/
def rgb_to_hsv (r g b : ℚ) : ℚ × ℚ × ℚ :=
  let maxc := max r (max g b)
  let minc := min r (min g b)
  let rangec := maxc - minc
  let v := maxc
  if minc = maxc then (0, 0, v)
  else
    let s := rangec / maxc
    let rc := (maxc - r) / rangec
    let gc := (maxc - g) / rangec
    let bc := (maxc - b) / rangec
    let h := if r = maxc then bc - gc else if g = maxc then rc - bc else 4 + gc - rc
    (pymod (h / 6) 1, s, v)

/-- Embeds `colorsys.hsv_to_rgb` (CPython, exact-rational reading). -/
def hsv_to_rgb (h s v : ℚ) : ℚ × ℚ × ℚ :=
  if s = 0 then (v, v, v)
  else
    let i0 : ℤ := truncQ (h * 6)
    let f : ℚ := h * 6 - i0
    let p := v * (1 - s)
    let q := v * (1 - s * f)
    let t := v * (1 - s * (1 - f))
    let i := i0 % 6
    if i = 0 then (v, t, p)
    else if i = 1 then (q, v, p)
    else if i = 2 then (p, v, t)
    else if i = 3 then (p, q, v)
    else if i = 4 then (t, p, v)
    else (v, p, q)

/-- Embeds `GameLogic._mix_colors` (a `@staticmethod`): HSV blend with the
shorter-arc hue average, saturation/value bias and the near-white pushback. -/
def mix_colors (color_a color_b : Color) : Color :=
  let t1 := rgb_to_hsv color_a.1 color_a.2.1 color_a.2.2
  let t2 := rgb_to_hsv color_b.1 color_b.2.1 color_b.2.2
  let h1 := t1.1
  let s1 := t1.2.1
  let v1 := t1.2.2
  let h2 := t2.1
  let s2 := t2.2.1
  let v2 := t2.2.2
  let hue_diff := pymod (h2 - h1 + 1/2) 1 - 1/2
  let mixed_h := pymod (h1 + hue_diff * (1/2)) 1
  let mixed_s := min 1 ((s1 + s2) / 2 + (2/10) * |s1 - s2|)
  let mixed_v := min 1 (max v1 v2 * (9/10) + (v1 + v2) / 2 * (1/10))
  if mixed_s < 15/100 ∧ mixed_v > 85/100 then
    hsv_to_rgb mixed_h (25/100) (max (7/10) (mixed_v - 1/10))
  else
    hsv_to_rgb mixed_h mixed_s mixed_v

/-- The color blend exactly as the specification words it (claim C3): hue is
the first hue plus half of the hue difference wrapped into [-0.5, 0.5),
modulo 1; saturation is the average of the two saturations plus 20% of their
absolute difference, clamped to 1; value is 90% of the max of the two values
plus 10% of their average, clamped to 1; a result with saturation below 0.15
and value above 0.85 has saturation forced to 0.25 and value reduced to
max(0.7, value - 0.1).  Stated from the spec text, to be compared with
`mix_colors` translated from the source. -/
def mix_colors_spec (color_a color_b : Color) : Color :=
  let t1 := rgb_to_hsv color_a.1 color_a.2.1 color_a.2.2
  let t2 := rgb_to_hsv color_b.1 color_b.2.1 color_b.2.2
  let h1 := t1.1
  let s1 := t1.2.1
  let v1 := t1.2.2
  let h2 := t2.1
  let s2 := t2.2.1
  let v2 := t2.2.2
  let wrapped_diff := pymod (h2 - h1 + 1/2) 1 - 1/2
  let hue := pymod (h1 + wrapped_diff / 2) 1
  let sat := min 1 ((s1 + s2) / 2 + (20/100) * |s1 - s2|)
  let value := min 1 ((90/100) * max v1 v2 + (10/100) * ((v1 + v2) / 2))
  if sat < 15/100 ∧ value > 85/100 then
    hsv_to_rgb hue (25/100) (max (7/10) (value - 1/10))
  else
    hsv_to_rgb hue sat value

/-- One spawn request: the tuple `(position, velocity, radius, color)`
produced by `_default_spawn_spec` or an injected `refill_generator`. -/
structure SpawnSpec where
  position : Vec2
  velocity : Vec2
  radius : ℚ
  color : Color

/-- Embeds the `GameLogic` class state.  `len` models `math.hypot`
(`Vec2.length`) as an abstract norm; `refill_specs`/`refill_idx` and
`rand_vels`/`rand_idx` are oracle streams modelling the random generator and
the injectable refill generator. -/
structure GameLogic where
  width : ℚ
  height : ℚ
  delete_zone : Option DeleteZone
  inventory : List Ball
  balls : List Ball
  id_counter : ℕ
  inventory_strip_height : ℚ
  inventory_slot_size : ℚ
  inventory_padding : ℚ
  refill_on_remove : Bool
  len : Vec2 → ℚ
  refill_specs : ℕ → SpawnSpec
  refill_idx : ℕ
  rand_vels : ℕ → Vec2
  rand_idx : ℕ

/-- Embeds `GameLogic.__init__`, including the clamping of the strip layout
parameters and the zero-based id counter. -/
def GameLogic.init (width height : ℚ) (delete_zone : Option DeleteZone)
    (inventory_strip_height inventory_slot_size inventory_padding : ℚ)
    (refill_on_remove : Bool) (len : Vec2 → ℚ)
    (refill_specs : ℕ → SpawnSpec) (rand_vels : ℕ → Vec2) : GameLogic :=
  { width := width
    height := height
    delete_zone := delete_zone
    inventory := []
    balls := []
    id_counter := 0
    inventory_strip_height := max 0 inventory_strip_height
    inventory_slot_size := max 1 inventory_slot_size
    inventory_padding := max 0 inventory_padding
    refill_on_remove := refill_on_remove
    len := len
    refill_specs := refill_specs
    refill_idx := 0
    rand_vels := rand_vels
    rand_idx := 0 }

/-- Embeds `GameLogic.spawn_ball`: fresh id, stored velocity initialised to
the spawn velocity, appended to the active list. -/
def GameLogic.spawn_ball (g : GameLogic) (position velocity : Vec2)
    (radius : ℚ) (color : Color) : Ball × GameLogic :=
  let ball : Ball :=
    { id := g.id_counter
      position := position
      velocity := velocity
      radius := radius
      color := color
      stored_velocity := velocity }
  (ball, { g with balls := g.balls ++ [ball], id_counter := g.id_counter + 1 })

/-- Embeds `GameLogic._play_area_height`. -/
def GameLogic.play_area_height (g : GameLogic) : ℚ :=
  max 1 (g.height - g.inventory_strip_height)

/-- Embeds `GameLogic._move_ball`: integrate, remember the velocity, wrap
both axes (x modulo the width, y modulo the play-area height). -/
def GameLogic.move_ball (g : GameLogic) (b : Ball) (dt : ℚ) : Ball :=
  let p := Vec2.add b.position (Vec2.smul b.velocity dt)
  { b with
    position := ⟨pymod p.x g.width, pymod p.y g.play_area_height⟩
    stored_velocity := b.velocity }

/-- Embeds `GameLogic._are_touching` (a `@staticmethod`; `len` models
`Vec2.length`). -/
def are_touching (len : Vec2 → ℚ) (a b : Ball) : Bool :=
  decide (len (Vec2.sub a.position b.position) ≤ a.radius + b.radius)

/-- One step of the inner loop of `_apply_color_mixing`: the running ball
`a` is compared against each later ball, and both colors are replaced by the
blend when they touch (in-place in Python, threaded functionally here). -/
def mixInner (len : Vec2 → ℚ) : Ball → List Ball → Ball × List Ball
  | a, [] => (a, [])
  | a, b :: bs =>
    let ab :=
      if are_touching len a b then
        let mixed := mix_colors a.color b.color
        ({ a with color := mixed }, { b with color := mixed })
      else (a, b)
    let r := mixInner len ab.1 bs
    (r.1, ab.2 :: r.2)

/-- Fuel-indexed outer loop of `_apply_color_mixing`; the fuel is the list
length (`mixInner` preserves length, so the fuel is never exhausted) and
exists only to make the recursion structural. -/
def applyColorMixingAux (len : Vec2 → ℚ) : ℕ → List Ball → List Ball
  | _, [] => []
  | 0, l => l
  | Nat.succ n, a :: rest =>
    let r := mixInner len a rest
    r.1 :: applyColorMixingAux len n r.2

/-- Embeds `GameLogic._apply_color_mixing` on the active list. -/
def applyColorMixing (len : Vec2 → ℚ) (l : List Ball) : List Ball :=
  applyColorMixingAux len l.length l

/-- Surface distance used by `_find_ball`: center distance to the pointer
minus the ball's own radius. -/
def surface_distance (g : GameLogic) (pointer : Vec2) (b : Ball) : ℚ :=
  g.len (Vec2.sub b.position pointer) - b.radius

/-- Head of Python's stable ascending sort by key: a left fold keeping the
earlier element on ties (replace only on strictly smaller key), which is
exactly `candidates.sort(key=...)[0]`. -/
def pickMinQ (c : Ball × ℚ) (rest : List (Ball × ℚ)) : Ball × ℚ :=
  rest.foldl (fun best d => if d.2 < best.2 then d else best) c

/-- Embeds `GameLogic._find_ball`: pair every active ball with its surface
distance, keep those within the influence radius, return the first one with
minimal surface distance (stable sort head), or none. -/
def GameLogic.find_ball (g : GameLogic) (pointer : Vec2)
    (influence_radius : ℚ) : Option Ball :=
  let candidates := g.balls.map (fun b => (b, surface_distance g pointer b))
  match candidates.filter (fun c => decide (c.2 ≤ influence_radius)) with
  | [] => none
  | c :: rest => some (pickMinQ c rest).1

/-- Embeds `GameLogic._inventory_slot_position`. -/
def GameLogic.inventory_slot_position (g : GameLogic) (slot_index : ℕ) : Vec2 :=
  let safe_width := max 1 g.width
  let usable_width := max 1 (safe_width - 2 * min g.inventory_padding (safe_width / 2))
  let columns : ℕ := (max 1 ⌊usable_width / g.inventory_slot_size⌋).toNat
  let slot_width := usable_width / (columns : ℚ)
  let gutter_offset := (safe_width - usable_width) / 2
  let col : ℕ := slot_index % columns
  let row : ℕ := slot_index / columns
  let x := gutter_offset + slot_width * ((col : ℚ) + 1/2)
  let slot_height := min g.inventory_slot_size (max 1 g.inventory_strip_height)
  let strip_top := max 0 (g.height - g.inventory_strip_height)
  let max_offset := max 0 (g.inventory_strip_height - slot_height / 2)
  let row_offset := slot_height * ((row : ℚ) + 1/2)
  let y0 := strip_top + min row_offset (if 0 < max_offset then max_offset else slot_height / 2)
  let y := min (g.height - slot_height / 2) y0
  let clamped_x := min (safe_width - slot_width / 2) (max (slot_width / 2) x)
  ⟨clamped_x, y⟩

/-- Embeds `GameLogic._place_ball_in_inventory`: park the ball at its slot
with zero velocity. -/
def GameLogic.place_ball_in_inventory (g : GameLogic) (b : Ball)
    (slot_index : ℕ) : Ball :=
  { b with position := g.inventory_slot_position slot_index, velocity := ⟨0, 0⟩ }

/-- The `enumerate` loop of `_refresh_inventory_layout`, generalised over the
starting index. -/
def placeAll (g : GameLogic) : ℕ → List Ball → List Ball
  | _, [] => []
  | k, b :: bs => g.place_ball_in_inventory b k :: placeAll g (k + 1) bs

/-- Embeds `GameLogic._refresh_inventory_layout` (no-op when the strip
height is ≤ 0). -/
def GameLogic.refresh_inventory_layout (g : GameLogic) : GameLogic :=
  if g.inventory_strip_height ≤ 0 then g
  else { g with inventory := placeAll g 0 g.inventory }

/-- Embeds `GameLogic._spawn_replacement`: when refill is enabled, draw the
next spec from the generator oracle and spawn it. -/
def GameLogic.spawn_replacement (g : GameLogic) : GameLogic :=
  if g.refill_on_remove then
    let spec := g.refill_specs g.refill_idx
    ((({ g with refill_idx := g.refill_idx + 1 } : GameLogic)).spawn_ball
      spec.position spec.velocity spec.radius spec.color).2
  else g

/-- The delete-zone test of the `update` loop, on the moved ball: Python's
`if self.delete_zone and self.delete_zone.contains(ball.position)` after
`_move_ball` ran. -/
def GameLogic.hitBall (g : GameLogic) (dt : ℚ) (b : Ball) : Bool :=
  match g.delete_zone with
  | none => false
  | some z => z.contains (g.move_ball b dt).position

/-- One iteration of the `update` loop for snapshot ball `b`: move it
(mutation-in-place modelled as replacing the ball with the same id; ids are
unique in every reachable state, so this is the same object Python mutates),
then, if the moved position lies in the delete zone, remove it from the
active list (`list.remove`, first element equal by value) and spawn a
replacement. -/
def GameLogic.update_step (dt : ℚ) (g : GameLogic) (b : Ball) : GameLogic :=
  let b2 := g.move_ball b dt
  let g2 := { g with balls := g.balls.map (fun c => if c.id = b.id then b2 else c) }
  if g.hitBall dt b then
    GameLogic.spawn_replacement { g2 with balls := g2.balls.erase b2 }
  else g2

/-- Embeds `GameLogic.update`: iterate over a snapshot (`list(self._balls)`)
of the active list, then run the pairwise color-mixing pass on the resulting
list. -/
def GameLogic.update (g : GameLogic) (dt : ℚ) : GameLogic :=
  let g2 := g.balls.foldl (GameLogic.update_step dt) g
  { g2 with balls := applyColorMixing g2.len g2.balls }

/-- Embeds `GameLogic.suck_ball`: find the target, record its velocity as
stored velocity, move it from the active list (`list.remove` by value) to
the inventory tail, refresh the layout, spawn a replacement.  The returned
ball is the object Python mutated, i.e. the last inventory element after the
layout refresh. -/
def GameLogic.suck_ball (g : GameLogic) (pointer : Vec2)
    (influence_radius : ℚ) : Option Ball × GameLogic :=
  match g.find_ball pointer influence_radius with
  | none => (none, g)
  | some target =>
    let t2 := { target with stored_velocity := target.velocity }
    let g1 := { g with balls := g.balls.erase target
                       inventory := g.inventory ++ [t2] }
    let g2 := g1.refresh_inventory_layout
    (g2.inventory.getLast?, g2.spawn_replacement)

/-- Embeds `GameLogic.spit_ball`: pop the inventory tail, refresh the
layout, resolve the velocity (explicit argument, else a non-zero stored
velocity, else a random one from the oracle), place the ball and append it
to the active list. -/
def GameLogic.spit_ball (g : GameLogic) (position : Vec2)
    (velocity : Option Vec2) : Option Ball × GameLogic :=
  match g.inventory.getLast? with
  | none => (none, g)
  | some ball =>
    let g1 := { g with inventory := g.inventory.dropLast }
    let g2 := g1.refresh_inventory_layout
    let vr : Vec2 × ℕ :=
      match velocity with
      | some v => (v, g2.rand_idx)
      | none =>
        if (0 : ℚ) < g2.len ball.stored_velocity then (ball.stored_velocity, g2.rand_idx)
        else (g2.rand_vels g2.rand_idx, g2.rand_idx + 1)
    let b2 := { ball with position := position, velocity := vr.1, stored_velocity := vr.1 }
    (some b2, { g2 with balls := g2.balls ++ [b2], rand_idx := vr.2 })

/-- States reachable from a fresh `GameLogic` by the public operations
`spawn_ball`, `update`, `suck_ball`, `spit_ball`. -/
inductive Reachable : GameLogic → Prop where
  | init (width height : ℚ) (delete_zone : Option DeleteZone)
      (strip slot padding : ℚ) (refill : Bool) (len : Vec2 → ℚ)
      (refill_specs : ℕ → SpawnSpec) (rand_vels : ℕ → Vec2) :
      Reachable (GameLogic.init width height delete_zone strip slot padding
        refill len refill_specs rand_vels)
  | spawn (g : GameLogic) (position velocity : Vec2) (radius : ℚ) (color : Color) :
      Reachable g → Reachable (g.spawn_ball position velocity radius color).2
  | update (g : GameLogic) (dt : ℚ) :
      Reachable g → Reachable (g.update dt)
  | suck (g : GameLogic) (pointer : Vec2) (influence_radius : ℚ) :
      Reachable g → Reachable (g.suck_ball pointer influence_radius).2
  | spit (g : GameLogic) (position : Vec2) (velocity : Option Vec2) :
      Reachable g → Reachable (g.spit_ball position velocity).2

/-- The ids of a list of balls, in order. -/
def idsOf (l : List Ball) : List ℕ := l.map Ball.id

/-- Everything of a ball except its color; the color-mixing pass only ever
changes colors, which this projection makes precise. -/
def Ball.core (b : Ball) : ℕ × Vec2 × Vec2 × ℚ × Vec2 :=
  (b.id, b.position, b.velocity, b.radius, b.stored_velocity)

/-- Configuration fields (never mutated after `__init__`) shared by two
states. -/
def SameCfg (g1 g2 : GameLogic) : Prop :=
  g1.width = g2.width ∧ g1.height = g2.height ∧ g1.delete_zone = g2.delete_zone ∧
  g1.inventory_strip_height = g2.inventory_strip_height ∧
  g1.inventory_slot_size = g2.inventory_slot_size ∧
  g1.inventory_padding = g2.inventory_padding ∧
  g1.refill_on_remove = g2.refill_on_remove ∧
  g1.len = g2.len

/-- The intermediate state inside `suck_ball` after the ownership transfer
(target erased from the active list, parked copy appended to the inventory)
and before the layout refresh; names the record for reuse in proofs. -/
def suckMid (g : GameLogic) (t : Ball) : GameLogic :=
  { g with
    balls := g.balls.erase t
    inventory := g.inventory ++ [{ t with stored_velocity := t.velocity }] }

/-- The intermediate state inside `spit_ball` after the pop and the layout
refresh. -/
def spitMid (g : GameLogic) : GameLogic :=
  ({ g with inventory := g.inventory.dropLast } : GameLogic).refresh_inventory_layout

/-- The bookkeeping invariant of every reachable state: the ids across the
active list and the inventory are pairwise distinct (each ball is owned by
exactly one collection, once), and the id counter dominates every live id
(ids are never reused). -/
def GoodState (g : GameLogic) : Prop :=
  (idsOf g.balls ++ idsOf g.inventory).Nodup ∧
  (∀ b ∈ g.balls, b.id < g.id_counter) ∧
  (∀ b ∈ g.inventory, b.id < g.id_counter)

/-- Every stored ball is parked: zero velocity, position equal to the slot
assigned to its inventory index by the layout computation. -/
def InventoryParked (g : GameLogic) : Prop :=
  ∀ i b, g.inventory[i]? = some b →
    b.velocity = ⟨0, 0⟩ ∧ b.position = g.inventory_slot_position i

/-- Taxicab norm: a concrete stand-in for `math.hypot` used to instantiate
the abstract norm in concrete runs (it agrees with the Euclidean norm on
the axis-aligned vectors those runs produce). -/
def lenTaxi (v : Vec2) : ℚ := |v.x| + |v.y|

/-- A constant spawn-spec oracle for concrete runs. -/
def specsW : ℕ → SpawnSpec := fun _ => ⟨⟨1, 1⟩, ⟨0, 0⟩, 5, ((1 : ℚ), (0 : ℚ), (0 : ℚ))⟩

/-- A constant random-velocity oracle for concrete runs. -/
def randsW : ℕ → Vec2 := fun _ => ⟨7, 0⟩

/-- Concrete run: strip height 0, no zone, refill disabled. -/
def GW0 : GameLogic := GameLogic.init 100 100 none 0 48 16 false lenTaxi specsW randsW

/-- One ball spawned at (10,10) with velocity (3,4). -/
def GW1 : GameLogic := (GW0.spawn_ball ⟨10, 10⟩ ⟨3, 4⟩ 5 ((1 : ℚ), (0 : ℚ), (0 : ℚ))).2

/-- That ball vacuumed with the pointer on its center. -/
def GW2 : GameLogic := (GW1.suck_ball ⟨10, 10⟩ 10).2

/-- Concrete run: delete zone inside the play area, refill enabled. -/
def GZin : GameLogic :=
  GameLogic.init 100 100 (some ⟨20, 20, 40, 40⟩) 0 48 16 true lenTaxi specsW randsW

/-- A resting ball parked inside the zone. -/
def GZin1 : GameLogic := (GZin.spawn_ball ⟨30, 30⟩ ⟨0, 0⟩ 5 ((1 : ℚ), (0 : ℚ), (0 : ℚ))).2

/-- Concrete run: delete zone entirely outside the wrap range. -/
def GZout : GameLogic :=
  GameLogic.init 100 100 (some ⟨200, 0, 300, 100⟩) 0 48 16 false lenTaxi specsW randsW

/-- A resting ball inside that out-of-range zone. -/
def GZout1 : GameLogic := (GZout.spawn_ball ⟨250, 50⟩ ⟨0, 0⟩ 5 ((1 : ℚ), (0 : ℚ), (0 : ℚ))).2

/-- Concrete run for the stack-order claim: two balls far apart. -/
def GS1 : GameLogic :=
  ((GW0.spawn_ball ⟨0, 0⟩ ⟨1, 0⟩ 1 ((1 : ℚ), (0 : ℚ), (0 : ℚ))).2.spawn_ball
    ⟨50, 0⟩ ⟨1, 0⟩ 1 ((0 : ℚ), (1 : ℚ), (0 : ℚ))).2

/-- Concrete run with a positive strip height (50). -/
def GP0 : GameLogic := GameLogic.init 100 100 none 50 48 16 false lenTaxi specsW randsW

/-- One ball spawned there. -/
def GP1 : GameLogic := (GP0.spawn_ball ⟨10, 10⟩ ⟨3, 4⟩ 5 ((1 : ℚ), (0 : ℚ), (0 : ℚ))).2

/-- That ball vacuumed into the strip. -/
def GP2 : GameLogic := (GP1.suck_ball ⟨10, 10⟩ 10).2

/-- Concrete run for the dt claims: one moving ball on a 10-by-10 field. -/
def GM0 : GameLogic := GameLogic.init 10 10 none 0 48 16 false lenTaxi specsW randsW

/-- The moving ball at the origin with velocity (1,0). -/
def GM1 : GameLogic := (GM0.spawn_ball ⟨0, 0⟩ ⟨1, 0⟩ 1 ((1 : ℚ), (0 : ℚ), (0 : ℚ))).2

/-- The ball spawned into `GZin1`. -/
def BZin : Ball := (GZin.spawn_ball ⟨30, 30⟩ ⟨0, 0⟩ 5 ((1 : ℚ), (0 : ℚ), (0 : ℚ))).1

/-- The ball spawned into `GM1`. -/
def BM : Ball := (GM0.spawn_ball ⟨0, 0⟩ ⟨1, 0⟩ 1 ((1 : ℚ), (0 : ℚ), (0 : ℚ))).1

/-- The ball spawned into `GZout1`. -/
def BZout : Ball := (GZout.spawn_ball ⟨250, 50⟩ ⟨0, 0⟩ 5 ((1 : ℚ), (0 : ℚ), (0 : ℚ))).1

/-- The ball held in the inventory of `GW2`. -/
def BW : Ball :=
  { id := 0, position := ⟨10, 10⟩, velocity := ⟨3, 4⟩, radius := 5
    color := ((1 : ℚ), (0 : ℚ), (0 : ℚ)), stored_velocity := ⟨3, 4⟩ }

/-- The first ball of the stack-order run, as returned by its capture. -/
def A5 : Ball :=
  { id := 0, position := ⟨0, 0⟩, velocity := ⟨1, 0⟩, radius := 1
    color := ((1 : ℚ), (0 : ℚ), (0 : ℚ)), stored_velocity := ⟨1, 0⟩ }

/-- The second ball of the stack-order run, as returned by its capture. -/
def B5 : Ball :=
  { id := 1, position := ⟨50, 0⟩, velocity := ⟨1, 0⟩, radius := 1
    color := ((0 : ℚ), (1 : ℚ), (0 : ℚ)), stored_velocity := ⟨1, 0⟩ }

/-- The stack-order run after the first capture. -/
def GS2 : GameLogic := (GS1.suck_ball ⟨0, 0⟩ 5).2

/-- The stack-order run after the second capture. -/
def GS3 : GameLogic := (GS2.suck_ball ⟨50, 0⟩ 5).2

theorem SameCfg.refl (g : GameLogic) : SameCfg g g :=
  ⟨rfl, rfl, rfl, rfl, rfl, rfl, rfl, rfl⟩

theorem SameCfg.trans {g1 g2 g3 : GameLogic} (h : SameCfg g1 g2)
    (h2 : SameCfg g2 g3) : SameCfg g1 g3 := by
  obtain ⟨a1, b1, c1, d1, e1, f1, r1, l1⟩ := h
  obtain ⟨a2, b2, c2, d2, e2, f2, r2, l2⟩ := h2
  exact ⟨a1.trans a2, b1.trans b2, c1.trans c2, d1.trans d2, e1.trans e2,
    f1.trans f2, r1.trans r2, l1.trans l2⟩

theorem pymod_nonneg (x m : ℚ) (hm : 0 < m) : 0 ≤ pymod x m := by
  unfold pymod
  have h1 : (⌊x / m⌋ : ℚ) ≤ x / m := Int.floor_le _
  have h2 : m * (⌊x / m⌋ : ℚ) ≤ m * (x / m) :=
    mul_le_mul_of_nonneg_left h1 hm.le
  have h3 : m * (x / m) = x := by field_simp
  linarith

theorem pymod_lt (x m : ℚ) (hm : 0 < m) : pymod x m < m := by
  unfold pymod
  have h1 : x / m < (⌊x / m⌋ : ℚ) + 1 := Int.lt_floor_add_one _
  have h2 : x < ((⌊x / m⌋ : ℚ) + 1) * m := (div_lt_iff hm).mp h1
  have h3 : ((⌊x / m⌋ : ℚ) + 1) * m = m * (⌊x / m⌋ : ℚ) + m := by ring
  linarith

theorem pymod_eq_self (x m : ℚ) (h0 : 0 ≤ x) (h1 : x < m) : pymod x m = x := by
  have hm : 0 < m := lt_of_le_of_lt h0 h1
  have hfl : ⌊x / m⌋ = 0 := by
    rw [Int.floor_eq_zero_iff]
    exact ⟨div_nonneg h0 hm.le, (div_lt_one hm).mpr h1⟩
  unfold pymod
  rw [hfl]
  push_cast
  ring

theorem move_ball_position (g : GameLogic) (b : Ball) (dt : ℚ) :
    (g.move_ball b dt).position =
      ⟨pymod (b.position.x + b.velocity.x * dt) g.width,
       pymod (b.position.y + b.velocity.y * dt) g.play_area_height⟩ := rfl

theorem move_ball_id (g : GameLogic) (b : Ball) (dt : ℚ) :
    (g.move_ball b dt).id = b.id := rfl

/-- The play-area height is clamped to at least 1. -/
theorem one_le_play_area_height (g : GameLogic) : 1 ≤ g.play_area_height :=
  le_max_left _ _

/-- A ball already inside the wrap range is left in place by `_move_ball`
when `dt = 0`. -/
theorem move_ball_zero_dt_in_range (g : GameLogic) (b : Ball)
    (hx0 : 0 ≤ b.position.x) (hx1 : b.position.x < g.width)
    (hy0 : 0 ≤ b.position.y) (hy1 : b.position.y < g.play_area_height) :
    (g.move_ball b 0).position = b.position := by
  rw [move_ball_position]
  have hx : b.position.x + b.velocity.x * 0 = b.position.x := by ring
  have hy : b.position.y + b.velocity.y * 0 = b.position.y := by ring
  rw [hx, hy, pymod_eq_self _ _ hx0 hx1, pymod_eq_self _ _ hy0 hy1]

theorem spawn_ball_cfg (g : GameLogic) (pos vel : Vec2) (r : ℚ) (c : Color) :
    SameCfg g (g.spawn_ball pos vel r c).2 :=
  ⟨rfl, rfl, rfl, rfl, rfl, rfl, rfl, rfl⟩

theorem spawn_ball_inventory (g : GameLogic) (pos vel : Vec2) (r : ℚ) (c : Color) :
    (g.spawn_ball pos vel r c).2.inventory = g.inventory := rfl

theorem spawn_ball_balls (g : GameLogic) (pos vel : Vec2) (r : ℚ) (c : Color) :
    (g.spawn_ball pos vel r c).2.balls =
      g.balls ++ [(g.spawn_ball pos vel r c).1] := rfl

theorem spawn_ball_fst (g : GameLogic) (pos vel : Vec2) (r : ℚ) (c : Color) :
    (g.spawn_ball pos vel r c).1 =
      { id := g.id_counter, position := pos, velocity := vel, radius := r,
        color := c, stored_velocity := vel } := rfl

theorem spawn_ball_counter (g : GameLogic) (pos vel : Vec2) (r : ℚ) (c : Color) :
    (g.spawn_ball pos vel r c).2.id_counter = g.id_counter + 1 := rfl

theorem spawn_replacement_cfg (g : GameLogic) : SameCfg g g.spawn_replacement := by
  unfold GameLogic.spawn_replacement
  split
  · exact ⟨rfl, rfl, rfl, rfl, rfl, rfl, rfl, rfl⟩
  · exact SameCfg.refl g

theorem spawn_replacement_inventory (g : GameLogic) :
    g.spawn_replacement.inventory = g.inventory := by
  unfold GameLogic.spawn_replacement
  split <;> rfl

/-- With refill disabled, `_spawn_replacement` is a no-op. -/
theorem spawn_replacement_of_not_refill (g : GameLogic)
    (h : g.refill_on_remove = false) : g.spawn_replacement = g := by
  unfold GameLogic.spawn_replacement
  rw [h]
  rfl

/-- With refill enabled, `_spawn_replacement` appends one fresh ball. -/
theorem spawn_replacement_of_refill (g : GameLogic)
    (h : g.refill_on_remove = true) :
    g.spawn_replacement.balls =
      g.balls ++ [{ id := g.id_counter
                    position := (g.refill_specs g.refill_idx).position
                    velocity := (g.refill_specs g.refill_idx).velocity
                    radius := (g.refill_specs g.refill_idx).radius
                    color := (g.refill_specs g.refill_idx).color
                    stored_velocity := (g.refill_specs g.refill_idx).velocity }] ∧
    g.spawn_replacement.id_counter = g.id_counter + 1 := by
  unfold GameLogic.spawn_replacement
  rw [h]
  exact ⟨rfl, rfl⟩

theorem spawn_replacement_counter_le (g : GameLogic) :
    g.id_counter ≤ g.spawn_replacement.id_counter := by
  unfold GameLogic.spawn_replacement
  split
  · exact Nat.le_succ _
  · exact Nat.le.refl

theorem refresh_cfg (g : GameLogic) : SameCfg g g.refresh_inventory_layout := by
  unfold GameLogic.refresh_inventory_layout
  split
  · exact SameCfg.refl g
  · exact ⟨rfl, rfl, rfl, rfl, rfl, rfl, rfl, rfl⟩

theorem refresh_balls (g : GameLogic) :
    g.refresh_inventory_layout.balls = g.balls := by
  unfold GameLogic.refresh_inventory_layout
  split <;> rfl

theorem refresh_counter (g : GameLogic) :
    g.refresh_inventory_layout.id_counter = g.id_counter := by
  unfold GameLogic.refresh_inventory_layout
  split <;> rfl

theorem placeAll_length (g : GameLogic) (k : ℕ) (l : List Ball) :
    (placeAll g k l).length = l.length := by
  induction l generalizing k with
  | nil => rfl
  | cons b bs ih => simp [placeAll, ih]

theorem place_ball_id (g : GameLogic) (b : Ball) (k : ℕ) :
    (g.place_ball_in_inventory b k).id = b.id := rfl

theorem placeAll_map_id (g : GameLogic) (k : ℕ) (l : List Ball) :
    idsOf (placeAll g k l) = idsOf l := by
  induction l generalizing k with
  | nil => rfl
  | cons b bs ih => simp only [placeAll, idsOf, List.map_cons] at ih ⊢; rw [ih]; rfl

theorem placeAll_append (g : GameLogic) (k : ℕ) (l1 l2 : List Ball) :
    placeAll g k (l1 ++ l2) = placeAll g k l1 ++ placeAll g (k + l1.length) l2 := by
  induction l1 generalizing k with
  | nil => simp [placeAll]
  | cons b bs ih =>
    have hx : placeAll g k (b :: bs ++ l2) =
        g.place_ball_in_inventory b k :: placeAll g (k + 1) (bs ++ l2) := rfl
    rw [hx, ih]
    have hi : k + 1 + bs.length = k + (b :: bs).length := by
      simp [List.length_cons]; omega
    rw [hi]
    rfl

theorem placeAll_getElem? (g : GameLogic) (k : ℕ) (l : List Ball) (i : ℕ) :
    (placeAll g k l)[i]? = (l[i]?).map (fun b => g.place_ball_in_inventory b (k + i)) := by
  induction l generalizing k i with
  | nil => simp [placeAll]
  | cons b bs ih =>
    cases i with
    | zero => simp [placeAll]
    | succ j =>
      simp only [placeAll, List.getElem?_cons_succ, ih]
      have : k + 1 + j = k + (j + 1) := by omega
      rw [this]

theorem refresh_map_id (g : GameLogic) :
    idsOf g.refresh_inventory_layout.inventory = idsOf g.inventory := by
  unfold GameLogic.refresh_inventory_layout
  split
  · rfl
  · exact placeAll_map_id g 0 g.inventory

theorem refresh_inventory_length (g : GameLogic) :
    g.refresh_inventory_layout.inventory.length = g.inventory.length := by
  unfold GameLogic.refresh_inventory_layout
  split
  · rfl
  · exact placeAll_length g 0 g.inventory

theorem mixInner_core (len : Vec2 → ℚ) (a : Ball) (l : List Ball) :
    (mixInner len a l).1.core = a.core ∧
    (mixInner len a l).2.map Ball.core = l.map Ball.core := by
  induction l generalizing a with
  | nil => exact ⟨rfl, rfl⟩
  | cons b bs ih =>
    simp only [mixInner]
    split
    · have h := ih { a with color := mix_colors a.color b.color }
      exact ⟨h.1, by simp [h.2, Ball.core]⟩
    · have h := ih a
      exact ⟨h.1, by simp [h.2]⟩

theorem applyColorMixingAux_core (len : Vec2 → ℚ) (n : ℕ) (l : List Ball) :
    (applyColorMixingAux len n l).map Ball.core = l.map Ball.core := by
  induction n generalizing l with
  | zero => cases l <;> rfl
  | succ m ih =>
    cases l with
    | nil => rfl
    | cons a rest =>
      simp only [applyColorMixingAux, List.map_cons]
      have h := mixInner_core len a rest
      rw [ih, h.1, h.2]

theorem applyColorMixing_core (len : Vec2 → ℚ) (l : List Ball) :
    (applyColorMixing len l).map Ball.core = l.map Ball.core :=
  applyColorMixingAux_core len l.length l

theorem core_map_id {l1 l2 : List Ball}
    (h : l1.map Ball.core = l2.map Ball.core) : idsOf l1 = idsOf l2 := by
  have h1 : Ball.id = fun b => (Ball.core b).1 := rfl
  unfold idsOf
  rw [h1, show (fun b => (Ball.core b).1) = (fun t : ℕ × Vec2 × Vec2 × ℚ × Vec2 => t.1) ∘ Ball.core from rfl]
  rw [← List.map_map, ← List.map_map, h]

theorem core_map_length {l1 l2 : List Ball}
    (h : l1.map Ball.core = l2.map Ball.core) : l1.length = l2.length := by
  have := congrArg List.length h
  simpa using this

theorem applyColorMixing_ids (len : Vec2 → ℚ) (l : List Ball) :
    idsOf (applyColorMixing len l) = idsOf l :=
  core_map_id (applyColorMixing_core len l)

theorem applyColorMixing_length (len : Vec2 → ℚ) (l : List Ball) :
    (applyColorMixing len l).length = l.length :=
  core_map_length (applyColorMixing_core len l)

/-- Replacing, by id, every occurrence with the moved ball keeps the id list
unchanged (the moved ball keeps its id). -/
theorem map_replace_ids (l : List Ball) (b b2 : Ball) (h : b2.id = b.id) :
    idsOf (l.map (fun c => if c.id = b.id then b2 else c)) = idsOf l := by
  unfold idsOf
  rw [List.map_map]
  apply List.map_congr_left
  intro c _
  by_cases hc : c.id = b.id
  · simp [hc, h]
  · simp [hc]

theorem update_step_cfg (dt : ℚ) (g : GameLogic) (b : Ball) :
    SameCfg g (GameLogic.update_step dt g b) := by
  unfold GameLogic.update_step
  split
  · exact SameCfg.trans (⟨rfl, rfl, rfl, rfl, rfl, rfl, rfl, rfl⟩ :
      SameCfg g { g with balls := (g.balls.map (fun c => if c.id = b.id then g.move_ball b dt else c)).erase (g.move_ball b dt) }) (spawn_replacement_cfg _)
  · exact ⟨rfl, rfl, rfl, rfl, rfl, rfl, rfl, rfl⟩

theorem update_step_inventory (dt : ℚ) (g : GameLogic) (b : Ball) :
    (GameLogic.update_step dt g b).inventory = g.inventory := by
  unfold GameLogic.update_step
  split
  · rw [spawn_replacement_inventory]
  · rfl

theorem update_step_counter_le (dt : ℚ) (g : GameLogic) (b : Ball) :
    g.id_counter ≤ (GameLogic.update_step dt g b).id_counter := by
  unfold GameLogic.update_step
  split
  · refine le_trans ?_ (spawn_replacement_counter_le _)
    exact Nat.le_refl _
  · exact Nat.le.refl

/-- A fold of config-preserving steps preserves the config. -/
theorem foldl_update_cfg (dt : ℚ) (snap : List Ball) (g : GameLogic) :
    SameCfg g (snap.foldl (GameLogic.update_step dt) g) := by
  induction snap generalizing g with
  | nil => exact SameCfg.refl g
  | cons b bs ih =>
    exact SameCfg.trans (update_step_cfg dt g b) (ih (GameLogic.update_step dt g b))

theorem foldl_update_inventory (dt : ℚ) (snap : List Ball) (g : GameLogic) :
    (snap.foldl (GameLogic.update_step dt) g).inventory = g.inventory := by
  induction snap generalizing g with
  | nil => rfl
  | cons b bs ih =>
    rw [List.foldl_cons, ih, update_step_inventory]

theorem foldl_update_counter_le (dt : ℚ) (snap : List Ball) (g : GameLogic) :
    g.id_counter ≤ (snap.foldl (GameLogic.update_step dt) g).id_counter := by
  induction snap generalizing g with
  | nil => exact Nat.le.refl
  | cons b bs ih =>
    exact Nat.le_trans (update_step_counter_le dt g b) (ih _)

theorem update_cfg (g : GameLogic) (dt : ℚ) : SameCfg g (g.update dt) := by
  unfold GameLogic.update
  exact SameCfg.trans (foldl_update_cfg dt g.balls g) ⟨rfl, rfl, rfl, rfl, rfl, rfl, rfl, rfl⟩

theorem update_inventory (g : GameLogic) (dt : ℚ) :
    (g.update dt).inventory = g.inventory := by
  unfold GameLogic.update
  exact foldl_update_inventory dt g.balls g


/-- When nothing is in range, `suck_ball` returns none and leaves the state
untouched. -/
theorem suck_ball_of_find_none (g : GameLogic) (pointer : Vec2) (r : ℚ)
    (h : g.find_ball pointer r = none) : g.suck_ball pointer r = (none, g) := by
  unfold GameLogic.suck_ball
  rw [h]

/-- Unfolding of `suck_ball` when a target was found. -/
theorem suck_ball_of_find_some (g : GameLogic) (pointer : Vec2) (r : ℚ)
    (t : Ball) (h : g.find_ball pointer r = some t) :
    g.suck_ball pointer r =
      ((suckMid g t).refresh_inventory_layout.inventory.getLast?,
       (suckMid g t).refresh_inventory_layout.spawn_replacement) := by
  unfold GameLogic.suck_ball
  rw [h]
  rfl

/-- Unfolding of `spit_ball` when the inventory is nonempty: some resolved
velocity and random-index pair exists describing the result. -/
theorem spit_ball_of_last_some (g : GameLogic) (pos : Vec2) (vel : Option Vec2)
    (ball : Ball) (h : g.inventory.getLast? = some ball) :
    ∃ w : Vec2 × ℕ,
      g.spit_ball pos vel =
        (some { ball with position := pos, velocity := w.1, stored_velocity := w.1 },
         { spitMid g with
           balls := (spitMid g).balls ++
             [{ ball with position := pos, velocity := w.1, stored_velocity := w.1 }]
           rand_idx := w.2 }) := by
  unfold GameLogic.spit_ball
  rw [h]
  exact ⟨_, rfl⟩

/-- Claim C7 scaffolding: with an empty inventory `spit_ball` is the
identity returning none. -/
theorem spit_ball_of_empty (g : GameLogic) (pos : Vec2) (vel : Option Vec2)
    (h : g.inventory = []) : g.spit_ball pos vel = (none, g) := by
  unfold GameLogic.spit_ball
  have hl : g.inventory.getLast? = none := by rw [h]; rfl
  rw [hl]

theorem idsOf_append (l1 l2 : List Ball) :
    idsOf (l1 ++ l2) = idsOf l1 ++ idsOf l2 := List.map_append _ _ _

theorem idsOf_getLast? (l : List Ball) :
    (l.getLast?).map Ball.id = (idsOf l).getLast? :=
  (List.getLast?_map Ball.id l).symm

theorem idsOf_dropLast (l : List Ball) :
    idsOf l.dropLast = (idsOf l).dropLast := List.map_dropLast Ball.id l

theorem suckMid_inventory (g : GameLogic) (t : Ball) :
    (suckMid g t).inventory = g.inventory ++ [{ t with stored_velocity := t.velocity }] := rfl

theorem suckMid_balls (g : GameLogic) (t : Ball) :
    (suckMid g t).balls = g.balls.erase t := rfl

theorem suckMid_cfg (g : GameLogic) (t : Ball) : SameCfg g (suckMid g t) :=
  ⟨rfl, rfl, rfl, rfl, rfl, rfl, rfl, rfl⟩

/-- After a successful capture the inventory id list has the target id
appended at the tail. -/
theorem suck_inventory_ids (g : GameLogic) (pointer : Vec2) (r : ℚ) (t : Ball)
    (h : g.find_ball pointer r = some t) :
    idsOf (g.suck_ball pointer r).2.inventory = idsOf g.inventory ++ [t.id] := by
  rw [suck_ball_of_find_some g pointer r t h]
  show idsOf ((suckMid g t).refresh_inventory_layout.spawn_replacement).inventory = _
  rw [spawn_replacement_inventory, refresh_map_id, suckMid_inventory, idsOf_append]
  rfl

/-- A successful capture returns a ball carrying the target's id. -/
theorem suck_fst_id (g : GameLogic) (pointer : Vec2) (r : ℚ) (t : Ball)
    (h : g.find_ball pointer r = some t) :
    ∃ a, (g.suck_ball pointer r).1 = some a ∧ a.id = t.id := by
  have hmap : ((g.suck_ball pointer r).1).map Ball.id = some t.id := by
    rw [suck_ball_of_find_some g pointer r t h]
    show ((suckMid g t).refresh_inventory_layout.inventory.getLast?).map Ball.id = some t.id
    rw [idsOf_getLast?, refresh_map_id, suckMid_inventory, idsOf_append]
    rw [show idsOf [{ t with stored_velocity := t.velocity }] = [t.id] from rfl]
    exact List.getLast?_concat _
  cases ho : (g.suck_ball pointer r).1 with
  | none => rw [ho] at hmap; exact Option.noConfusion hmap
  | some a =>
    rw [ho] at hmap
    refine ⟨a, rfl, ?_⟩
    have h2 : some a.id = some t.id := hmap
    injection h2

theorem suck_cfg (g : GameLogic) (pointer : Vec2) (r : ℚ) :
    SameCfg g (g.suck_ball pointer r).2 := by
  cases h : g.find_ball pointer r with
  | none => rw [suck_ball_of_find_none g pointer r h]; exact SameCfg.refl g
  | some t =>
    rw [suck_ball_of_find_some g pointer r t h]
    exact SameCfg.trans (SameCfg.trans (suckMid_cfg g t)
      (refresh_cfg _)) (spawn_replacement_cfg _)

theorem spitMid_cfg (g : GameLogic) : SameCfg g (spitMid g) :=
  SameCfg.trans
    (⟨rfl, rfl, rfl, rfl, rfl, rfl, rfl, rfl⟩ : SameCfg g
      ({ g with inventory := g.inventory.dropLast } : GameLogic))
    (refresh_cfg _)

theorem spit_cfg (g : GameLogic) (pos : Vec2) (vel : Option Vec2) :
    SameCfg g (g.spit_ball pos vel).2 := by
  cases h : g.inventory.getLast? with
  | none =>
    have hh : g.inventory = [] := List.getLast?_eq_none_iff.mp h
    rw [spit_ball_of_empty g pos vel hh]
    exact SameCfg.refl g
  | some ball =>
    obtain ⟨w, hw⟩ := spit_ball_of_last_some g pos vel ball h
    rw [hw]
    exact SameCfg.trans (spitMid_cfg g) ⟨rfl, rfl, rfl, rfl, rfl, rfl, rfl, rfl⟩

/-- The stable-sort-head fold picks an element of the list, minimal overall,
and strictly below every candidate before it (first wins on ties). -/
theorem pickMinQ_spec (rest : List (Ball × ℚ)) (c : Ball × ℚ) :
    ∃ l1 l2, c :: rest = l1 ++ pickMinQ c rest :: l2 ∧
      (∀ d ∈ l1, (pickMinQ c rest).2 < d.2) ∧
      (∀ d ∈ c :: rest, (pickMinQ c rest).2 ≤ d.2) := by
  induction rest generalizing c with
  | nil =>
    exact ⟨[], [], rfl, by simp, by simp [pickMinQ]⟩
  | cons d rest ih =>
    have hstep : pickMinQ c (d :: rest) = pickMinQ (if d.2 < c.2 then d else c) rest := rfl
    by_cases hd : d.2 < c.2
    · rw [hstep, if_pos hd]
      obtain ⟨l1, l2, hsplit, hstrict, hmin⟩ := ih d
      have hmd : (pickMinQ d rest).2 ≤ d.2 := hmin d (List.mem_cons_self d rest)
      refine ⟨c :: l1, l2, ?_, ?_, ?_⟩
      · rw [List.cons_append, ← hsplit]
      · intro x hx
        rcases List.mem_cons.mp hx with hxc | hxl
        · subst hxc; exact lt_of_le_of_lt hmd hd
        · exact hstrict x hxl
      · intro x hx
        rcases List.mem_cons.mp hx with hxc | hxl
        · subst hxc; exact le_of_lt (lt_of_le_of_lt hmd hd)
        · exact hmin x hxl
    · rw [hstep, if_neg hd]
      have hcd : c.2 ≤ d.2 := le_of_not_lt hd
      obtain ⟨l1, l2, hsplit, hstrict, hmin⟩ := ih c
      cases l1 with
      | nil =>
        simp only [List.nil_append] at hsplit
        injection hsplit with h1 h2
        refine ⟨[], d :: rest, ?_, by simp, ?_⟩
        · simp only [List.nil_append, ← h1]
        · intro x hx
          rcases List.mem_cons.mp hx with hxc | hxl
          · subst hxc; rw [← h1]
          · rcases List.mem_cons.mp hxl with hxd | hxr
            · subst hxd; rw [← h1]; exact hcd
            · exact hmin x (List.mem_cons_of_mem c hxr)
      | cons e l1t =>
        simp only [List.cons_append] at hsplit
        injection hsplit with h1 h2
        have hmc : (pickMinQ c rest).2 < c.2 := by
          have := hstrict e (List.mem_cons_self e l1t)
          rw [← h1] at this
          exact this
        refine ⟨c :: d :: l1t, l2, ?_, ?_, ?_⟩
        · rw [List.cons_append, List.cons_append, ← h2]
        · intro x hx
          rcases List.mem_cons.mp hx with hxc | hxl
          · subst hxc; exact hmc
          · rcases List.mem_cons.mp hxl with hxd | hxr
            · subst hxd; exact lt_of_lt_of_le hmc hcd
            · exact hstrict x (List.mem_cons_of_mem e hxr)
        · intro x hx
          rcases List.mem_cons.mp hx with hxc | hxl
          · subst hxc; exact le_of_lt hmc
          · rcases List.mem_cons.mp hxl with hxd | hxr
            · subst hxd; exact le_of_lt (lt_of_lt_of_le hmc hcd)
            · exact hmin x (List.mem_cons_of_mem c hxr)

/-- Decomposing a split of the filtered key-pair list into a split of the
underlying ball list: the element at the split is a ball of the original
list, and the filtered prefix comes exactly from the balls before it. -/
theorem filter_map_split (key : Ball → ℚ) (r : ℚ) (l : List Ball)
    (l1 : List (Ball × ℚ)) (m : Ball × ℚ) (l2 : List (Ball × ℚ))
    (h : (l.map (fun b => (b, key b))).filter (fun c => decide (c.2 ≤ r)) = l1 ++ m :: l2) :
    ∃ la lb, l = la ++ m.1 :: lb ∧ m.2 = key m.1 ∧
      (la.map (fun b => (b, key b))).filter (fun c => decide (c.2 ≤ r)) = l1 := by
  induction l generalizing l1 with
  | nil => simp at h
  | cons b bs ih =>
    rw [List.map_cons, List.filter_cons] at h
    by_cases hp : decide ((b, key b).2 ≤ r) = true
    · rw [if_pos hp] at h
      cases l1 with
      | nil =>
        simp only [List.nil_append] at h
        injection h with h1 h2
        have hm1 : m.1 = b := by rw [← h1]
        have hm2 : m.2 = key b := by rw [← h1]
        refine ⟨[], bs, ?_, ?_, rfl⟩
        · simp [hm1]
        · rw [hm2, hm1]
      | cons x l1t =>
        simp only [List.cons_append] at h
        injection h with h1 h2
        obtain ⟨la, lb, heq, hmk, hfl⟩ := ih l1t h2
        refine ⟨b :: la, lb, by simp [heq], hmk, ?_⟩
        rw [List.map_cons, List.filter_cons, if_pos hp, hfl, h1]
    · rw [if_neg hp] at h
      obtain ⟨la, lb, heq, hmk, hfl⟩ := ih l1 h
      refine ⟨b :: la, lb, by simp [heq], hmk, ?_⟩
      rw [List.map_cons, List.filter_cons, if_neg hp, hfl]

/-- Unfolding equation of `_find_ball` with the candidate list made
explicit. -/
theorem find_ball_eq (g : GameLogic) (pointer : Vec2) (r : ℚ) :
    g.find_ball pointer r =
      match (g.balls.map (fun b => (b, surface_distance g pointer b))).filter
          (fun c => decide (c.2 ≤ r)) with
      | [] => none
      | c :: rest => some (pickMinQ c rest).1 := rfl

/-- No candidate within range: `_find_ball` returns none. -/
theorem find_ball_none (g : GameLogic) (pointer : Vec2) (r : ℚ)
    (h : ∀ b ∈ g.balls, ¬ (surface_distance g pointer b ≤ r)) :
    g.find_ball pointer r = none := by
  have hnil : ((g.balls.map (fun b => (b, surface_distance g pointer b))).filter
      (fun c => decide (c.2 ≤ r))) = [] := by
    rw [List.filter_eq_nil_iff]
    intro c hc
    obtain ⟨b, hb, hbc⟩ := List.mem_map.mp hc
    subst hbc
    simpa using h b hb
  rw [find_ball_eq, hnil]

/-- Some candidate within range: `_find_ball` returns a ball. -/
theorem find_ball_isSome (g : GameLogic) (pointer : Vec2) (r : ℚ) (b : Ball)
    (hb : b ∈ g.balls) (hr : surface_distance g pointer b ≤ r) :
    ∃ t, g.find_ball pointer r = some t := by
  have hmem : (b, surface_distance g pointer b) ∈
      (g.balls.map (fun c => (c, surface_distance g pointer c))).filter
        (fun c => decide (c.2 ≤ r)) := by
    rw [List.mem_filter]
    exact ⟨List.mem_map.mpr ⟨b, hb, rfl⟩, by simpa using hr⟩
  cases hc : (g.balls.map (fun c => (c, surface_distance g pointer c))).filter
      (fun c => decide (c.2 ≤ r)) with
  | nil => rw [hc] at hmem; simp at hmem
  | cons c rest =>
    rw [find_ball_eq, hc]
    exact ⟨_, rfl⟩

/-- Full characterisation of a successful `_find_ball`: the returned ball is
an active ball within range, of minimal surface distance, and strictly
closer than every in-range ball before it in iteration order. -/
theorem find_ball_some_spec (g : GameLogic) (pointer : Vec2) (r : ℚ) (t : Ball)
    (h : g.find_ball pointer r = some t) :
    ∃ la lb, g.balls = la ++ t :: lb ∧ surface_distance g pointer t ≤ r ∧
      (∀ c ∈ g.balls, surface_distance g pointer c ≤ r →
        surface_distance g pointer t ≤ surface_distance g pointer c) ∧
      (∀ c ∈ la, surface_distance g pointer c ≤ r →
        surface_distance g pointer t < surface_distance g pointer c) := by
  rw [find_ball_eq] at h
  rcases hc : (g.balls.map (fun b => (b, surface_distance g pointer b))).filter
      (fun c => decide (c.2 ≤ r)) with _ | ⟨c, rest⟩
  · rw [hc] at h; exact Option.noConfusion h
  · rw [hc] at h
    have ht : (pickMinQ c rest).1 = t := by
      have h2 : some (pickMinQ c rest).1 = some t := h
      injection h2
    obtain ⟨L1, L2, hsplit, hstrict, hmin⟩ := pickMinQ_spec rest c
    have hfl : (g.balls.map (fun b => (b, surface_distance g pointer b))).filter
        (fun c => decide (c.2 ≤ r)) = L1 ++ pickMinQ c rest :: L2 := by
      rw [hc, hsplit]
    obtain ⟨la, lb, heq, hm2, hpre⟩ :=
      filter_map_split (surface_distance g pointer) r g.balls L1 (pickMinQ c rest) L2 hfl
    have hmr : (pickMinQ c rest).2 ≤ r := by
      have hmem : pickMinQ c rest ∈ (g.balls.map
          (fun b => (b, surface_distance g pointer b))).filter
          (fun c => decide (c.2 ≤ r)) := by
        rw [hfl]
        exact List.mem_append_right _ (List.mem_cons_self _ _)
      have := (List.mem_filter.mp hmem).2
      simpa using this
    refine ⟨la, lb, by rw [← ht]; exact heq, ?_, ?_, ?_⟩
    · rw [← ht, ← hm2]; exact hmr
    · intro x hx hxr
      have hmem : (x, surface_distance g pointer x) ∈ (g.balls.map
          (fun b => (b, surface_distance g pointer b))).filter
          (fun c => decide (c.2 ≤ r)) := by
        rw [List.mem_filter]
        exact ⟨List.mem_map.mpr ⟨x, hx, rfl⟩, by simpa using hxr⟩
      rw [hc] at hmem
      have := hmin _ hmem
      rw [← ht, ← hm2]
      exact this
    · intro x hx hxr
      have hmem : (x, surface_distance g pointer x) ∈ (la.map
          (fun b => (b, surface_distance g pointer b))).filter
          (fun c => decide (c.2 ≤ r)) := by
        rw [List.mem_filter]
        exact ⟨List.mem_map.mpr ⟨x, hx, rfl⟩, by simpa using hxr⟩
      rw [hpre] at hmem
      have := hstrict _ hmem
      rw [← ht, ← hm2]
      exact this

/-- The found ball is an element of the active list. -/
theorem find_ball_mem (g : GameLogic) (pointer : Vec2) (r : ℚ) (t : Ball)
    (h : g.find_ball pointer r = some t) : t ∈ g.balls := by
  obtain ⟨la, lb, heq, _, _, _⟩ := find_ball_some_spec g pointer r t h
  rw [heq]
  exact List.mem_append_right _ (List.mem_cons_self _ _)

theorem id_mem_idsOf {b : Ball} {l : List Ball} (h : b ∈ l) : b.id ∈ idsOf l :=
  List.mem_map_of_mem _ h

theorem exists_of_mem_idsOf {x : ℕ} {l : List Ball} (h : x ∈ idsOf l) :
    ∃ c ∈ l, c.id = x := List.mem_map.mp h

/-- A generic fold-invariant principle. -/
theorem foldl_preserves {α : Type} (f : GameLogic → α → GameLogic)
    (P : GameLogic → Prop) (hf : ∀ g a, P g → P (f g a)) :
    ∀ (l : List α) (g : GameLogic), P g → P (l.foldl f g) := by
  intro l
  induction l with
  | nil => intro g hg; exact hg
  | cons a l ih => intro g hg; exact ih (f g a) (hf g a hg)

/-- Shrinking the active list (by ids) preserves the bookkeeping
invariant. -/
theorem good_of_balls_ids_sublist (g : GameLogic) (l : List Ball)
    (hids : List.Sublist (idsOf l) (idsOf g.balls)) (hg : GoodState g) :
    GoodState ({ g with balls := l } : GameLogic) := by
  obtain ⟨hnd, hdb, hdi⟩ := hg
  refine ⟨?_, ?_, hdi⟩
  · exact hnd.sublist (hids.append_right _)
  · intro b hb
    obtain ⟨c, hc, hcb⟩ := exists_of_mem_idsOf (hids.subset (id_mem_idsOf hb))
    rw [← hcb]
    exact hdb c hc

theorem spawn_good (g : GameLogic) (pos vel : Vec2) (rad : ℚ) (col : Color)
    (h : GoodState g) : GoodState (g.spawn_ball pos vel rad col).2 := by
  obtain ⟨hnd, hdb, hdi⟩ := h
  refine ⟨?_, ?_, ?_⟩
  · rw [spawn_ball_balls, idsOf_append]
    rw [show (g.spawn_ball pos vel rad col).2.inventory = g.inventory from rfl]
    rw [show idsOf [(g.spawn_ball pos vel rad col).1] = [g.id_counter] from rfl]
    rw [List.append_assoc]
    rw [show [g.id_counter] ++ idsOf g.inventory = g.id_counter :: idsOf g.inventory from rfl]
    rw [List.nodup_middle, List.nodup_cons]
    constructor
    · intro hmem
      rcases List.mem_append.mp hmem with hA | hI
      · obtain ⟨c, hc, hcb⟩ := exists_of_mem_idsOf hA
        exact absurd hcb (Nat.ne_of_lt (hdb c hc))
      · obtain ⟨c, hc, hcb⟩ := exists_of_mem_idsOf hI
        exact absurd hcb (Nat.ne_of_lt (hdi c hc))
    · exact hnd
  · intro b hb
    rw [spawn_ball_balls] at hb
    rw [spawn_ball_counter]
    rcases List.mem_append.mp hb with hold | hnew
    · exact Nat.lt_succ_of_lt (hdb b hold)
    · rw [List.mem_singleton.mp hnew]
      exact Nat.lt_succ_self _
  · intro b hb
    rw [show (g.spawn_ball pos vel rad col).2.inventory = g.inventory from rfl] at hb
    rw [spawn_ball_counter]
    exact Nat.lt_succ_of_lt (hdi b hb)

theorem spawn_replacement_good (g : GameLogic) (h : GoodState g) :
    GoodState g.spawn_replacement := by
  unfold GameLogic.spawn_replacement
  split
  · exact spawn_good _ _ _ _ _ ⟨h.1, h.2.1, h.2.2⟩
  · exact h

theorem refresh_good (g : GameLogic) (h : GoodState g) :
    GoodState g.refresh_inventory_layout := by
  obtain ⟨hnd, hdb, hdi⟩ := h
  unfold GameLogic.refresh_inventory_layout
  split
  · exact ⟨hnd, hdb, hdi⟩
  · refine ⟨?_, hdb, ?_⟩
    · rw [show idsOf ({ g with inventory := placeAll g 0 g.inventory } :
          GameLogic).inventory = idsOf (placeAll g 0 g.inventory) from rfl]
      rw [placeAll_map_id]
      exact hnd
    · intro b hb
      have : b.id ∈ idsOf (placeAll g 0 g.inventory) := id_mem_idsOf hb
      rw [placeAll_map_id] at this
      obtain ⟨c, hc, hcb⟩ := exists_of_mem_idsOf this
      rw [← hcb]
      exact hdi c hc

theorem update_step_good (dt : ℚ) (g : GameLogic) (b : Ball)
    (h : GoodState g) : GoodState (GameLogic.update_step dt g b) := by
  simp only [GameLogic.update_step]
  have hmapids : idsOf (g.balls.map
      (fun c => if c.id = b.id then g.move_ball b dt else c)) = idsOf g.balls :=
    map_replace_ids g.balls b (g.move_ball b dt) rfl
  have hmid : GoodState ({ g with balls := (g.balls.map
      (fun c => if c.id = b.id then g.move_ball b dt else c)) } : GameLogic) :=
    good_of_balls_ids_sublist g _ (by rw [hmapids]) h
  split
  · apply spawn_replacement_good
    refine good_of_balls_ids_sublist g _ ?_ h
    have h1 : List.Sublist
        (idsOf ((g.balls.map (fun c => if c.id = b.id then g.move_ball b dt else c)).erase
          (g.move_ball b dt)))
        (idsOf (g.balls.map (fun c => if c.id = b.id then g.move_ball b dt else c))) :=
      (List.erase_sublist _ _).map _
    rw [hmapids] at h1
    exact h1
  · exact hmid

theorem update_good (g : GameLogic) (dt : ℚ) (h : GoodState g) :
    GoodState (g.update dt) := by
  unfold GameLogic.update
  have hfold : GoodState (g.balls.foldl (GameLogic.update_step dt) g) :=
    foldl_preserves _ GoodState (fun g1 b hb => update_step_good dt g1 b hb) g.balls g h
  obtain ⟨hnd, hdb, hdi⟩ := hfold
  refine ⟨?_, ?_, hdi⟩
  · rw [show idsOf ({ g.balls.foldl (GameLogic.update_step dt) g with
        balls := (applyColorMixing (g.balls.foldl (GameLogic.update_step dt) g).len
          (g.balls.foldl (GameLogic.update_step dt) g).balls) } : GameLogic).balls =
        idsOf (g.balls.foldl (GameLogic.update_step dt) g).balls from
      applyColorMixing_ids _ _]
    exact hnd
  · intro b hb
    have : b.id ∈ idsOf (applyColorMixing
        (g.balls.foldl (GameLogic.update_step dt) g).len
        (g.balls.foldl (GameLogic.update_step dt) g).balls) := id_mem_idsOf hb
    rw [applyColorMixing_ids] at this
    obtain ⟨c, hc, hcb⟩ := exists_of_mem_idsOf this
    rw [← hcb]
    exact hdb c hc

theorem suck_good (g : GameLogic) (pointer : Vec2) (r : ℚ) (h : GoodState g) :
    GoodState (g.suck_ball pointer r).2 := by
  cases hf : g.find_ball pointer r with
  | none => rw [suck_ball_of_find_none g pointer r hf]; exact h
  | some t =>
    rw [suck_ball_of_find_some g pointer r t hf]
    show GoodState ((suckMid g t).refresh_inventory_layout.spawn_replacement)
    apply spawn_replacement_good
    apply refresh_good
    obtain ⟨hnd, hdb, hdi⟩ := h
    have htmem : t ∈ g.balls := find_ball_mem g pointer r t hf
    have hperm : List.Perm (idsOf g.balls) (t.id :: idsOf (g.balls.erase t)) :=
      (List.perm_cons_erase htmem).map Ball.id
    refine ⟨?_, ?_, ?_⟩
    · rw [show (suckMid g t).balls = g.balls.erase t from rfl,
        show (suckMid g t).inventory =
          g.inventory ++ [{ t with stored_velocity := t.velocity }] from rfl,
        idsOf_append,
        show idsOf [{ t with stored_velocity := t.velocity }] = [t.id] from rfl]
      have p : List.Perm (idsOf g.balls ++ idsOf g.inventory)
          (idsOf (g.balls.erase t) ++ (idsOf g.inventory ++ [t.id])) := by
        refine (hperm.append_right (idsOf g.inventory)).trans ?_
        show List.Perm (t.id :: (idsOf (g.balls.erase t) ++ idsOf g.inventory)) _
        rw [← List.append_assoc]
        exact (List.perm_append_singleton _ _).symm
      exact p.nodup hnd
    · intro b hb
      rw [show (suckMid g t).balls = g.balls.erase t from rfl] at hb
      exact hdb b ((List.erase_sublist t g.balls).subset hb)
    · intro b hb
      rw [show (suckMid g t).inventory =
          g.inventory ++ [{ t with stored_velocity := t.velocity }] from rfl] at hb
      rcases List.mem_append.mp hb with hold | hnew
      · exact hdi b hold
      · rw [List.mem_singleton.mp hnew]
        exact hdb t htmem

theorem spit_good (g : GameLogic) (pos : Vec2) (vel : Option Vec2)
    (h : GoodState g) : GoodState (g.spit_ball pos vel).2 := by
  cases hl : g.inventory.getLast? with
  | none =>
    rw [spit_ball_of_empty g pos vel (List.getLast?_eq_none_iff.mp hl)]
    exact h
  | some ball =>
    obtain ⟨w, hw⟩ := spit_ball_of_last_some g pos vel ball hl
    rw [hw]
    obtain ⟨hnd, hdb, hdi⟩ := h
    have hinv : g.inventory.dropLast ++ [ball] = g.inventory :=
      List.dropLast_append_getLast? ball hl
    have hsb : (spitMid g).balls = g.balls := refresh_balls _
    have hsi : idsOf (spitMid g).inventory = (idsOf g.inventory).dropLast := by
      rw [show idsOf (spitMid g).inventory =
        idsOf ({ g with inventory := g.inventory.dropLast } : GameLogic).inventory from
          refresh_map_id _]
      rw [show ({ g with inventory := g.inventory.dropLast } : GameLogic).inventory =
        g.inventory.dropLast from rfl]
      exact idsOf_dropLast _
    have hsc : (spitMid g).id_counter = g.id_counter := refresh_counter _
    have hI : (idsOf g.inventory).dropLast ++ [ball.id] = idsOf g.inventory := by
      have := congrArg idsOf hinv
      rw [idsOf_append, show idsOf [ball] = [ball.id] from rfl, idsOf_dropLast] at this
      exact this
    have hballinv : ball ∈ g.inventory := by
      rw [← hinv]
      exact List.mem_append_right _ (List.mem_cons_self _ _)
    refine ⟨?_, ?_, ?_⟩
    · show ((idsOf ((spitMid g).balls ++
        [{ ball with position := pos, velocity := w.1, stored_velocity := w.1 }])) ++
        idsOf (spitMid g).inventory).Nodup
      rw [idsOf_append, hsb, hsi,
        show idsOf [{ ball with position := pos, velocity := w.1, stored_velocity := w.1 }] =
          [ball.id] from rfl]
      have hnd2 : (idsOf g.balls ++ ((idsOf g.inventory).dropLast ++ [ball.id])).Nodup := by
        rw [hI]
        exact hnd
      have p1 : List.Perm (idsOf g.balls ++ ((idsOf g.inventory).dropLast ++ [ball.id]))
          (ball.id :: (idsOf g.balls ++ (idsOf g.inventory).dropLast)) := by
        rw [← List.append_assoc]
        exact List.perm_append_singleton _ _
      have p2 : List.Perm ((idsOf g.balls ++ [ball.id]) ++ (idsOf g.inventory).dropLast)
          (ball.id :: (idsOf g.balls ++ (idsOf g.inventory).dropLast)) :=
        (List.perm_append_singleton _ _).append_right _
      exact p2.symm.nodup (p1.nodup hnd2)
    · intro b hb
      show b.id < (spitMid g).id_counter
      rw [hsc]
      have hb2 : b ∈ (spitMid g).balls ++
          [{ ball with position := pos, velocity := w.1, stored_velocity := w.1 }] := hb
      rcases List.mem_append.mp hb2 with hold | hnew
      · rw [hsb] at hold
        exact hdb b hold
      · rw [List.mem_singleton.mp hnew]
        exact hdi ball hballinv
    · intro b hb
      show b.id < (spitMid g).id_counter
      rw [hsc]
      have : b.id ∈ idsOf (spitMid g).inventory := id_mem_idsOf hb
      rw [hsi] at this
      have hsubl : b.id ∈ idsOf g.inventory := (List.dropLast_sublist _).subset this
      obtain ⟨c, hc, hcb⟩ := exists_of_mem_idsOf hsubl
      rw [← hcb]
      exact hdi c hc

/-- Every reachable state satisfies the bookkeeping invariant. -/
theorem reachable_good (g : GameLogic) (h : Reachable g) : GoodState g := by
  induction h with
  | init w hh z s sl p rf len specs rands =>
    exact ⟨by simp [GameLogic.init, idsOf], by simp [GameLogic.init], by simp [GameLogic.init]⟩
  | spawn g pos vel rad col hg ih => exact spawn_good g pos vel rad col ih
  | update g dt hg ih => exact update_good g dt ih
  | suck g pointer r hg ih => exact suck_good g pointer r ih
  | spit g pos vel hg ih => exact spit_good g pos vel ih

theorem SameCfg.zone {g1 g2 : GameLogic} (h : SameCfg g1 g2) :
    g1.delete_zone = g2.delete_zone := h.2.2.1

theorem SameCfg.refill {g1 g2 : GameLogic} (h : SameCfg g1 g2) :
    g1.refill_on_remove = g2.refill_on_remove := h.2.2.2.2.2.2.1

theorem move_ball_congr {g1 g2 : GameLogic} (b : Ball) (dt : ℚ)
    (h : SameCfg g1 g2) : g1.move_ball b dt = g2.move_ball b dt := by
  obtain ⟨hw, hh, hz, hs, _⟩ := h
  unfold GameLogic.move_ball GameLogic.play_area_height
  rw [hw, hh, hs]

theorem hitBall_congr {g1 g2 : GameLogic} (b : Ball) (dt : ℚ)
    (h : SameCfg g1 g2) : g1.hitBall dt b = g2.hitBall dt b := by
  unfold GameLogic.hitBall
  rw [h.zone, move_ball_congr b dt h]

/-- A stationary ball already inside the wrap range does not move,
whatever `dt` is. -/
theorem move_ball_rest_in_range (g : GameLogic) (b : Ball) (dt : ℚ)
    (hv : b.velocity = ⟨0, 0⟩)
    (hx0 : 0 ≤ b.position.x) (hx1 : b.position.x < g.width)
    (hy0 : 0 ≤ b.position.y) (hy1 : b.position.y < g.play_area_height) :
    (g.move_ball b dt).position = b.position := by
  rw [move_ball_position, hv]
  have hx : b.position.x + (Vec2.mk 0 0).x * dt = b.position.x := by
    simp [Vec2.mk]
  have hy : b.position.y + (Vec2.mk 0 0).y * dt = b.position.y := by
    simp [Vec2.mk]
  rw [hx, hy, pymod_eq_self _ _ hx0 hx1, pymod_eq_self _ _ hy0 hy1]

theorem spawn_replacement_length_of_refill (g : GameLogic)
    (h : g.refill_on_remove = true) :
    g.spawn_replacement.balls.length = g.balls.length + 1 := by
  rw [(spawn_replacement_of_refill g h).1]
  simp

theorem spawn_replacement_balls_extends (g : GameLogic) :
    ∃ l, g.spawn_replacement.balls = g.balls ++ l := by
  unfold GameLogic.spawn_replacement
  split
  · exact ⟨_, rfl⟩
  · exact ⟨[], by simp⟩

theorem spawn_replacement_not_mem (g : GameLogic) (i : ℕ)
    (hi : i ∉ idsOf g.balls) (hctr : i < g.id_counter) :
    i ∉ idsOf g.spawn_replacement.balls ∧ i < g.spawn_replacement.id_counter := by
  unfold GameLogic.spawn_replacement
  split
  · constructor
    · rw [show (({ g with refill_idx := g.refill_idx + 1 } :
          GameLogic).spawn_ball (g.refill_specs g.refill_idx).position
          (g.refill_specs g.refill_idx).velocity (g.refill_specs g.refill_idx).radius
          (g.refill_specs g.refill_idx).color).2.balls =
          g.balls ++ [(({ g with refill_idx := g.refill_idx + 1 } :
          GameLogic).spawn_ball (g.refill_specs g.refill_idx).position
          (g.refill_specs g.refill_idx).velocity (g.refill_specs g.refill_idx).radius
          (g.refill_specs g.refill_idx).color).1] from rfl]
      rw [idsOf_append]
      intro hmem
      rcases List.mem_append.mp hmem with hA | hB
      · exact hi hA
      · rw [show idsOf [(({ g with refill_idx := g.refill_idx + 1 } :
            GameLogic).spawn_ball (g.refill_specs g.refill_idx).position
            (g.refill_specs g.refill_idx).velocity (g.refill_specs g.refill_idx).radius
            (g.refill_specs g.refill_idx).color).1] = [g.id_counter] from rfl] at hB
        rw [List.mem_singleton] at hB
        exact absurd hB (Nat.ne_of_lt hctr)
    · exact Nat.lt_succ_of_lt hctr
  · exact ⟨hi, hctr⟩

/-- Ids other than the processed ball's id survive one `update` loop
iteration and stay dominated by the counter. -/
theorem update_step_id_mem (dt : ℚ) (g : GameLogic) (b : Ball) (x : ℕ)
    (hx : x ∈ idsOf g.balls) (hne : x ≠ b.id) :
    x ∈ idsOf (GameLogic.update_step dt g b).balls := by
  simp only [GameLogic.update_step]
  have hx2 : x ∈ idsOf (g.balls.map
      (fun c => if c.id = b.id then g.move_ball b dt else c)) := by
    rw [map_replace_ids g.balls b (g.move_ball b dt) rfl]
    exact hx
  split
  · obtain ⟨c, hc, hcx⟩ := exists_of_mem_idsOf hx2
    have hcne : c ≠ g.move_ball b dt := by
      intro hcontra
      rw [hcontra] at hcx
      rw [show (g.move_ball b dt).id = b.id from rfl] at hcx
      exact hne hcx.symm
    have hcmem : c ∈ (g.balls.map
        (fun c => if c.id = b.id then g.move_ball b dt else c)).erase (g.move_ball b dt) :=
      (List.mem_erase_of_ne hcne).mpr hc
    obtain ⟨l, hl⟩ := spawn_replacement_balls_extends
      ({ g with balls := ((g.balls.map
        (fun c => if c.id = b.id then g.move_ball b dt else c)).erase (g.move_ball b dt)) } :
        GameLogic)
    rw [show (GameLogic.spawn_replacement { g with balls := ((g.balls.map
        (fun c => if c.id = b.id then g.move_ball b dt else c)).erase
        (g.move_ball b dt)) }).balls = ({ g with balls := ((g.balls.map
        (fun c => if c.id = b.id then g.move_ball b dt else c)).erase
        (g.move_ball b dt)) } : GameLogic).balls ++ l from hl]
    rw [idsOf_append]
    refine List.mem_append_left _ ?_
    rw [← hcx]
    exact id_mem_idsOf hcmem
  · exact hx2

/-- One `update` loop iteration keeps the active count when refill is
enabled and the processed ball's id is present. -/
theorem update_step_length (dt : ℚ) (g : GameLogic) (b : Ball)
    (hrefill : g.refill_on_remove = true) (hx : b.id ∈ idsOf g.balls) :
    (GameLogic.update_step dt g b).balls.length = g.balls.length := by
  simp only [GameLogic.update_step]
  have hlen : (g.balls.map
      (fun c => if c.id = b.id then g.move_ball b dt else c)).length = g.balls.length :=
    List.length_map _ _
  split
  · have hx2 : g.move_ball b dt ∈ g.balls.map
        (fun c => if c.id = b.id then g.move_ball b dt else c) := by
      obtain ⟨c, hc, hcx⟩ := exists_of_mem_idsOf hx
      refine List.mem_map.mpr ⟨c, hc, ?_⟩
      rw [if_pos hcx]
    have hpos : 0 < (g.balls.map
        (fun c => if c.id = b.id then g.move_ball b dt else c)).length :=
      List.length_pos_of_mem hx2
    rw [spawn_replacement_length_of_refill ({ g with balls := ((g.balls.map
        (fun c => if c.id = b.id then g.move_ball b dt else c)).erase
        (g.move_ball b dt)) } : GameLogic) hrefill]
    rw [show ({ g with balls := ((g.balls.map
        (fun c => if c.id = b.id then g.move_ball b dt else c)).erase
        (g.move_ball b dt)) } : GameLogic).balls = ((g.balls.map
        (fun c => if c.id = b.id then g.move_ball b dt else c)).erase
        (g.move_ball b dt)) from rfl]
    rw [List.length_erase_of_mem hx2, hlen]
    rw [hlen] at hpos
    omega
  · exact hlen

/-- An id that is absent, never processed later, and dominated by the
counter stays absent through the rest of the `update` loop. -/
theorem update_step_not_mem (dt : ℚ) (g : GameLogic) (b : Ball) (i : ℕ)
    (hi : i ∉ idsOf g.balls) (hbne : b.id ≠ i) (hctr : i < g.id_counter) :
    i ∉ idsOf (GameLogic.update_step dt g b).balls ∧
      i < (GameLogic.update_step dt g b).id_counter := by
  simp only [GameLogic.update_step]
  have hi2 : i ∉ idsOf (g.balls.map
      (fun c => if c.id = b.id then g.move_ball b dt else c)) := by
    rw [map_replace_ids g.balls b (g.move_ball b dt) rfl]
    exact hi
  split
  · have hi3 : i ∉ idsOf ((g.balls.map
        (fun c => if c.id = b.id then g.move_ball b dt else c)).erase
        (g.move_ball b dt)) := by
      intro hmem
      exact hi2 (((List.erase_sublist _ _).map Ball.id).subset hmem)
    exact spawn_replacement_not_mem _ i hi3 hctr
  · exact ⟨hi2, hctr⟩

/-- Processing a snapshot ball whose moved position hits the delete zone
removes its id from the active list (unique ids assumed). -/
theorem update_step_removes (dt : ℚ) (g : GameLogic) (b : Ball)
    (hnd : (idsOf g.balls).Nodup) (hhit : g.hitBall dt b = true)
    (hctr : b.id < g.id_counter) :
    b.id ∉ idsOf (GameLogic.update_step dt g b).balls ∧
      b.id < (GameLogic.update_step dt g b).id_counter := by
  simp only [GameLogic.update_step, hhit, if_true]
  have hmapids : idsOf (g.balls.map
      (fun c => if c.id = b.id then g.move_ball b dt else c)) = idsOf g.balls :=
    map_replace_ids g.balls b (g.move_ball b dt) rfl
  have hgone : b.id ∉ idsOf ((g.balls.map
      (fun c => if c.id = b.id then g.move_ball b dt else c)).erase
      (g.move_ball b dt)) := by
    by_cases hmem : g.move_ball b dt ∈ g.balls.map
        (fun c => if c.id = b.id then g.move_ball b dt else c)
    · have hperm : List.Perm (idsOf (g.balls.map
          (fun c => if c.id = b.id then g.move_ball b dt else c)))
          ((g.move_ball b dt).id :: idsOf ((g.balls.map
          (fun c => if c.id = b.id then g.move_ball b dt else c)).erase
          (g.move_ball b dt))) :=
        (List.perm_cons_erase hmem).map Ball.id
      have hnd2 : ((g.move_ball b dt).id :: idsOf ((g.balls.map
          (fun c => if c.id = b.id then g.move_ball b dt else c)).erase
          (g.move_ball b dt))).Nodup := by
        refine hperm.nodup ?_
        rw [hmapids]
        exact hnd
      have := (List.nodup_cons.mp hnd2).1
      rw [show (g.move_ball b dt).id = b.id from rfl] at this
      exact this
    · rw [List.erase_of_not_mem hmem, hmapids]
      intro hcontra
      obtain ⟨c, hc, hcx⟩ := exists_of_mem_idsOf hcontra
      rcases List.mem_map.mp (by rw [← hmapids] at hcontra; exact hcontra : b.id ∈
        idsOf (g.balls.map (fun c => if c.id = b.id then g.move_ball b dt else c))) with _
      obtain ⟨c2, hc2, hc2x⟩ := exists_of_mem_idsOf (by
        rw [← hmapids] at hcontra; exact hcontra)
      by_cases hcid : c2 = g.move_ball b dt
      · exact hmem (hcid ▸ hc2)
      · obtain ⟨orig, horig, horigeq⟩ := List.mem_map.mp hc2
        by_cases ho : orig.id = b.id
        · rw [if_pos ho] at horigeq
          exact hmem (horigeq ▸ hc2)
        · rw [if_neg ho] at horigeq
          rw [← horigeq] at hc2x
          exact ho hc2x
  exact spawn_replacement_not_mem _ b.id hgone hctr

/-- An absent, unprocessed, dominated id stays absent through the whole
`update` loop. -/
theorem update_fold_not_mem (dt : ℚ) (snap : List Ball) :
    ∀ (g : GameLogic) (i : ℕ), i ∉ idsOf g.balls → (∀ c ∈ snap, c.id ≠ i) →
      i < g.id_counter →
      i ∉ idsOf (snap.foldl (GameLogic.update_step dt) g).balls := by
  induction snap with
  | nil => intro g i hi _ _; exact hi
  | cons c rest ih =>
    intro g i hi hne hctr
    have hstep := update_step_not_mem dt g c i hi (hne c (List.mem_cons_self c rest)) hctr
    exact ih (GameLogic.update_step dt g c) i hstep.1
      (fun d hd => hne d (List.mem_cons_of_mem c hd)) hstep.2

/-- With refill enabled, the `update` loop preserves the active count. -/
theorem update_fold_length (dt : ℚ) (snap : List Ball) :
    ∀ (g : GameLogic), g.refill_on_remove = true → (idsOf snap).Nodup →
      (∀ b ∈ snap, b.id ∈ idsOf g.balls) →
      (snap.foldl (GameLogic.update_step dt) g).balls.length = g.balls.length := by
  induction snap with
  | nil => intro g _ _ _; rfl
  | cons b rest ih =>
    intro g hrefill hnd hmem
    have hbmem : b.id ∈ idsOf g.balls := hmem b (List.mem_cons_self b rest)
    have hstep : (GameLogic.update_step dt g b).balls.length = g.balls.length :=
      update_step_length dt g b hrefill hbmem
    have hnd2 : (idsOf rest).Nodup := by
      rw [show idsOf (b :: rest) = b.id :: idsOf rest from rfl] at hnd
      exact (List.nodup_cons.mp hnd).2
    have hbnotin : b.id ∉ idsOf rest := by
      rw [show idsOf (b :: rest) = b.id :: idsOf rest from rfl] at hnd
      exact (List.nodup_cons.mp hnd).1
    have hmem2 : ∀ c ∈ rest, c.id ∈ idsOf (GameLogic.update_step dt g b).balls := by
      intro c hc
      refine update_step_id_mem dt g b c.id (hmem c (List.mem_cons_of_mem b hc)) ?_
      intro hcontra
      exact hbnotin (hcontra ▸ id_mem_idsOf hc)
    have hrefill2 : (GameLogic.update_step dt g b).refill_on_remove = true := by
      rw [← (update_step_cfg dt g b).refill]
      exact hrefill
    rw [List.foldl_cons, ih (GameLogic.update_step dt g b) hrefill2 hnd2 hmem2, hstep]

/-- A snapshot ball whose moved position hits the delete zone has its id
removed by the `update` loop (assuming the reachable-state bookkeeping). -/
theorem update_fold_removes (dt : ℚ) (snap : List Ball) :
    ∀ (g : GameLogic) (b : Ball), b ∈ snap → (idsOf snap).Nodup →
      GoodState g → b.id < g.id_counter → g.hitBall dt b = true →
      b.id ∉ idsOf (snap.foldl (GameLogic.update_step dt) g).balls := by
  induction snap with
  | nil => intro g b hb; exact absurd hb (List.not_mem_nil b)
  | cons c rest ih =>
    intro g b hb hnd hgood hctr hhit
    have hndc := List.nodup_cons.mp
      (show (c.id :: idsOf rest).Nodup from hnd)
    rcases List.mem_cons.mp hb with hbc | hbr
    · subst hbc
      have hA : (idsOf g.balls).Nodup := hgood.1.of_append_left
      have hstep := update_step_removes dt g b hA hhit hctr
      rw [List.foldl_cons]
      refine update_fold_not_mem dt rest (GameLogic.update_step dt g b) b.id hstep.1
        ?_ hstep.2
      intro d hd hcontra
      exact hndc.1 (hcontra ▸ id_mem_idsOf hd)
    · rw [List.foldl_cons]
      refine ih (GameLogic.update_step dt g c) b hbr hndc.2
        (update_step_good dt g c hgood) ?_ ?_
      · exact lt_of_lt_of_le hctr (update_step_counter_le dt g c)
      · rw [← hitBall_congr b dt (update_step_cfg dt g c)]
        exact hhit

/-- With refill enabled, `update` preserves the active-ball count
(assuming distinct active ids, as in every reachable state). -/
theorem update_length_of_refill (g : GameLogic) (dt : ℚ)
    (hrefill : g.refill_on_remove = true) (hnd : (idsOf g.balls).Nodup) :
    (g.update dt).balls.length = g.balls.length := by
  unfold GameLogic.update
  rw [show ({ g.balls.foldl (GameLogic.update_step dt) g with
      balls := (applyColorMixing (g.balls.foldl (GameLogic.update_step dt) g).len
        (g.balls.foldl (GameLogic.update_step dt) g).balls) } : GameLogic).balls =
      (applyColorMixing (g.balls.foldl (GameLogic.update_step dt) g).len
        (g.balls.foldl (GameLogic.update_step dt) g).balls) from rfl]
  rw [applyColorMixing_length]
  exact update_fold_length dt g.balls g hrefill hnd (fun b hb => id_mem_idsOf hb)

/-- A ball of the snapshot whose moved position lands in the delete zone is
gone from the active set after `update` (reachable-state bookkeeping
assumed). -/
theorem update_removes_hit_ball (g : GameLogic) (dt : ℚ) (b : Ball)
    (hb : b ∈ g.balls) (hgood : GoodState g) (hhit : g.hitBall dt b = true) :
    b.id ∉ idsOf (g.update dt).balls := by
  unfold GameLogic.update
  rw [show ({ g.balls.foldl (GameLogic.update_step dt) g with
      balls := (applyColorMixing (g.balls.foldl (GameLogic.update_step dt) g).len
        (g.balls.foldl (GameLogic.update_step dt) g).balls) } : GameLogic).balls =
      (applyColorMixing (g.balls.foldl (GameLogic.update_step dt) g).len
        (g.balls.foldl (GameLogic.update_step dt) g).balls) from rfl]
  rw [applyColorMixing_ids]
  exact update_fold_removes dt g.balls g b hb hgood.1.of_append_left hgood
    (hgood.2.1 b hb) hhit

theorem SameCfg.strip {g1 g2 : GameLogic} (h : SameCfg g1 g2) :
    g1.inventory_strip_height = g2.inventory_strip_height := h.2.2.2.1

/-- The slot layout depends only on the configuration fields. -/
theorem slot_congr {g1 g2 : GameLogic} (h : SameCfg g1 g2) (i : ℕ) :
    g1.inventory_slot_position i = g2.inventory_slot_position i := by
  obtain ⟨hw, hh, _, hs, hsl, hp, _, _⟩ := h
  unfold GameLogic.inventory_slot_position
  rw [hw, hh, hs, hsl, hp]

theorem parked_congr {g1 g2 : GameLogic} (hcfg : SameCfg g1 g2)
    (hinv : g2.inventory = g1.inventory) (hp : InventoryParked g1) :
    InventoryParked g2 := by
  intro i b hb
  rw [hinv] at hb
  obtain ⟨hv, hpos⟩ := hp i b hb
  exact ⟨hv, by rw [hpos, slot_congr hcfg i]⟩

/-- A layout refresh with a positive strip height parks the whole
inventory. -/
theorem refresh_parked (g : GameLogic) (hstrip : 0 < g.inventory_strip_height) :
    InventoryParked g.refresh_inventory_layout := by
  unfold GameLogic.refresh_inventory_layout
  rw [if_neg (not_le.mpr hstrip)]
  intro i b hb
  rw [show ({ g with inventory := placeAll g 0 g.inventory } :
      GameLogic).inventory = placeAll g 0 g.inventory from rfl] at hb
  rw [placeAll_getElem?] at hb
  cases hm : g.inventory[i]? with
  | none => rw [hm] at hb; exact Option.noConfusion hb
  | some c =>
    rw [hm] at hb
    have hb2 : some (g.place_ball_in_inventory c (0 + i)) = some b := hb
    have hb3 : g.place_ball_in_inventory c (0 + i) = b := by injection hb2
    rw [← hb3]
    have hzero : 0 + i = i := Nat.zero_add i
    constructor
    · rfl
    · show (g.place_ball_in_inventory c (0 + i)).position =
        ({ g with inventory := placeAll g 0 g.inventory } :
          GameLogic).inventory_slot_position i
    
      rw [hzero]
      rw [show (g.place_ball_in_inventory c i).position =
        g.inventory_slot_position i from rfl]
      exact slot_congr ⟨rfl, rfl, rfl, rfl, rfl, rfl, rfl, rfl⟩ i

/-- Every reachable state with a positive strip height keeps its inventory
parked at the computed slots with zero velocity. -/
theorem reachable_parked (g : GameLogic) (h : Reachable g)
    (hstrip : 0 < g.inventory_strip_height) : InventoryParked g := by
  induction h with
  | init w hh z s sl p rf len specs rands =>
    intro i b hb
    simp [GameLogic.init] at hb
  | spawn g pos vel rad col hg ih =>
    have hcfg := spawn_ball_cfg g pos vel rad col
    refine parked_congr hcfg (spawn_ball_inventory g pos vel rad col) (ih ?_)
    rw [hcfg.strip]
    exact hstrip
  | update g dt hg ih =>
    have hcfg := update_cfg g dt
    refine parked_congr hcfg (update_inventory g dt) (ih ?_)
    rw [hcfg.strip]
    exact hstrip
  | suck g pointer r hg ih =>
    cases hf : g.find_ball pointer r with
    | none =>
      rw [suck_ball_of_find_none g pointer r hf]
      rw [suck_ball_of_find_none g pointer r hf] at hstrip
      exact ih hstrip
    | some t =>
      rw [suck_ball_of_find_some g pointer r t hf] at hstrip ⊢
      have hstrip2 : 0 < (suckMid g t).inventory_strip_height := by
        have h1 := (refresh_cfg (suckMid g t)).strip
        have h2 := (spawn_replacement_cfg ((suckMid g t).refresh_inventory_layout)).strip
        show 0 < (suckMid g t).inventory_strip_height
        rw [h1, h2]
        exact hstrip
      refine parked_congr (spawn_replacement_cfg _)
        (spawn_replacement_inventory _) ?_
      exact refresh_parked (suckMid g t) hstrip2
  | spit g pos vel hg ih =>
    have hstripg : 0 < g.inventory_strip_height := by
      rw [(spit_cfg g pos vel).strip]
      exact hstrip
    cases hl : g.inventory.getLast? with
    | none =>
      rw [spit_ball_of_empty g pos vel (List.getLast?_eq_none_iff.mp hl)]
      exact ih hstripg
    | some ball =>
      obtain ⟨w, hw⟩ := spit_ball_of_last_some g pos vel ball hl
      rw [hw]
      have hcfg2 : SameCfg (spitMid g) ({ spitMid g with
          balls := ((spitMid g).balls ++
            [{ ball with position := pos, velocity := w.1, stored_velocity := w.1 }])
          rand_idx := w.2 } : GameLogic) :=
        ⟨rfl, rfl, rfl, rfl, rfl, rfl, rfl, rfl⟩
      have hstrip2 : 0 < ({ g with inventory := g.inventory.dropLast } :
          GameLogic).inventory_strip_height := hstripg
      refine parked_congr hcfg2 rfl ?_
      exact refresh_parked _ hstrip2

theorem spitMid_inventory_ids (g : GameLogic) :
    idsOf (spitMid g).inventory = (idsOf g.inventory).dropLast := by
  unfold spitMid
  rw [refresh_map_id]
  rw [show ({ g with inventory := g.inventory.dropLast } : GameLogic).inventory =
    g.inventory.dropLast from rfl]
  exact idsOf_dropLast _

theorem spitMid_balls (g : GameLogic) : (spitMid g).balls = g.balls :=
  refresh_balls _

theorem getLast_id_of_ids {l : List Ball} {i : ℕ}
    (h : (idsOf l).getLast? = some i) : ∃ b, l.getLast? = some b ∧ b.id = i := by
  cases hl : l.getLast? with
  | none =>
    have h2 : (l.getLast?).map Ball.id = some i := by rw [idsOf_getLast?]; exact h
    rw [hl] at h2
    exact Option.noConfusion h2
  | some b =>
    have h2 : (l.getLast?).map Ball.id = some i := by rw [idsOf_getLast?]; exact h
    rw [hl] at h2
    have h3 : some b.id = some i := h2
    exact ⟨b, rfl, by injection h3⟩

/-- A successful pop: the ejected ball carries the tail id and the
inventory id list loses its tail. -/
theorem spit_of_ids_last (g : GameLogic) (pos : Vec2) (vel : Option Vec2)
    (i : ℕ) (h : (idsOf g.inventory).getLast? = some i) :
    ∃ b2 g3, g.spit_ball pos vel = (some b2, g3) ∧ b2.id = i ∧
      idsOf g3.inventory = (idsOf g.inventory).dropLast := by
  obtain ⟨lb, hlb, hlbi⟩ := getLast_id_of_ids h
  obtain ⟨w, hw⟩ := spit_ball_of_last_some g pos vel lb hlb
  exact ⟨_, _, hw, hlbi, spitMid_inventory_ids g⟩

/-- With refill disabled, a capture moves one ball from the active list to
the inventory: the total count is unchanged. -/
theorem suck_counts_no_refill (g : GameLogic) (pointer : Vec2) (r : ℚ)
    (h : g.refill_on_remove = false) :
    (g.suck_ball pointer r).2.balls.length + (g.suck_ball pointer r).2.inventory.length =
      g.balls.length + g.inventory.length := by
  cases hf : g.find_ball pointer r with
  | none => rw [suck_ball_of_find_none g pointer r hf]
  | some t =>
    rw [suck_ball_of_find_some g pointer r t hf]
    have hrefX : ((suckMid g t).refresh_inventory_layout).refill_on_remove = false := by
      rw [← (refresh_cfg (suckMid g t)).refill, ← (suckMid_cfg g t).refill]
      exact h
    rw [show (((suckMid g t).refresh_inventory_layout.inventory.getLast?,
        (suckMid g t).refresh_inventory_layout.spawn_replacement)).2 =
        (suckMid g t).refresh_inventory_layout.spawn_replacement from rfl]
    rw [spawn_replacement_of_not_refill _ hrefX]
    rw [refresh_balls, refresh_inventory_length]
    rw [suckMid_balls, suckMid_inventory]
    have htmem : t ∈ g.balls := find_ball_mem g pointer r t hf
    have hpos : 0 < g.balls.length := List.length_pos_of_mem htmem
    rw [List.length_erase_of_mem htmem, List.length_append]
    simp only [List.length_cons, List.length_nil]
    omega

/-- An ejection moves one ball from the inventory to the active list: the
total count is unchanged (no refill is involved in `spit_ball` at all). -/
theorem spit_counts (g : GameLogic) (pos : Vec2) (vel : Option Vec2) :
    (g.spit_ball pos vel).2.balls.length + (g.spit_ball pos vel).2.inventory.length =
      g.balls.length + g.inventory.length := by
  cases hl : g.inventory.getLast? with
  | none => rw [spit_ball_of_empty g pos vel (List.getLast?_eq_none_iff.mp hl)]
  | some ball =>
    obtain ⟨w, hw⟩ := spit_ball_of_last_some g pos vel ball hl
    rw [hw]
    have hne : g.inventory ≠ [] := by
      intro hcontra
      rw [hcontra] at hl
      exact Option.noConfusion hl
    have hpos : 0 < g.inventory.length := List.length_pos.mpr hne
    show ((spitMid g).balls ++
        [{ ball with position := pos, velocity := w.1, stored_velocity := w.1 }]).length +
        (spitMid g).inventory.length = g.balls.length + g.inventory.length
    have hinvlen : (spitMid g).inventory.length = g.inventory.length - 1 := by
      have := congrArg List.length (spitMid_inventory_ids g)
      rw [show (idsOf (spitMid g).inventory).length = (spitMid g).inventory.length by
        unfold idsOf; rw [List.length_map]] at this
      rw [List.length_dropLast] at this
      rw [show (idsOf g.inventory).length = g.inventory.length by
        unfold idsOf; rw [List.length_map]] at this
      exact this
    rw [List.length_append, spitMid_balls, hinvlen]
    simp only [List.length_cons, List.length_nil]
    omega

/-- Claim C1: for every reachable simulation state (any sequence of the
public operations spawn_ball, update, suck_ball, spit_ball from a fresh
GameLogic), the combined id list of the active collection and the inventory
has no duplicate: no ball id is ever in both collections at once, and each
collection holds an id at most once, so every alive ball belongs to exactly
one of the two collections. -/
theorem claim_C1_exclusivity (g : GameLogic) (h : Reachable g) :
    (idsOf g.balls ++ idsOf g.inventory).Nodup ∧
    ∀ i : ℕ, ¬ (i ∈ idsOf g.balls ∧ i ∈ idsOf g.inventory) := by
  have hg := reachable_good g h
  refine ⟨hg.1, ?_⟩
  rintro i ⟨hA, hI⟩
  exact (List.disjoint_of_nodup_append hg.1) hA hI

/-- Witness for C1 at a concrete reachable state (spawn then capture). -/
theorem claim_C1_exclusivity_witness :
    (idsOf GW2.balls ++ idsOf GW2.inventory).Nodup ∧
    ∀ i : ℕ, ¬ (i ∈ idsOf GW2.balls ∧ i ∈ idsOf GW2.inventory) :=
  claim_C1_exclusivity GW2
    (Reachable.suck GW1 ⟨10, 10⟩ 10
      (Reachable.spawn GW0 ⟨10, 10⟩ ⟨3, 4⟩ 5 ((1 : ℚ), (0 : ℚ), (0 : ℚ))
        (Reachable.init 100 100 none 0 48 16 false lenTaxi specsW randsW)))

/-- Claim C2: with refill_on_remove disabled, each suck_ball call and each
spit_ball call leaves the sum of the active-ball count and the inventory
count unchanged (whether or not a ball is captured or ejected), hence every
sequence of such calls preserves the sum. -/
theorem claim_C2_conservation (g : GameLogic) (pointer pos : Vec2) (r : ℚ)
    (vel : Option Vec2) (h : g.refill_on_remove = false) :
    ((g.suck_ball pointer r).2.balls.length +
        (g.suck_ball pointer r).2.inventory.length =
      g.balls.length + g.inventory.length) ∧
    ((g.spit_ball pos vel).2.balls.length +
        (g.spit_ball pos vel).2.inventory.length =
      g.balls.length + g.inventory.length) :=
  ⟨suck_counts_no_refill g pointer r h, spit_counts g pos vel⟩

/-- Witness for C2 at a concrete state with one ball and refill off. -/
theorem claim_C2_conservation_witness :
    GW1.refill_on_remove = false ∧
    (((GW1.suck_ball ⟨10, 10⟩ 10).2.balls.length +
        (GW1.suck_ball ⟨10, 10⟩ 10).2.inventory.length =
      GW1.balls.length + GW1.inventory.length) ∧
    ((GW1.spit_ball ⟨5, 5⟩ (some ⟨1, 0⟩)).2.balls.length +
        (GW1.spit_ball ⟨5, 5⟩ (some ⟨1, 0⟩)).2.inventory.length =
      GW1.balls.length + GW1.inventory.length)) :=
  ⟨by decide, claim_C2_conservation GW1 ⟨10, 10⟩ ⟨5, 5⟩ 10 (some ⟨1, 0⟩) (by decide)⟩

/-- Claim C3: the color-blend function computes exactly what the
specification describes — both inputs converted to HSV, hue blended along
the shorter wrapped arc, saturation and value blended with the stated
vividness bias and clamps, the near-white pushback applied, and the result
converted back to RGB.  Stated as an unconditional equality between the
translation of the source and the formula written from the specification
text; both are pure functions, so determinism and absence of side effects
are inherent. -/
theorem claim_C3_mix_colors (ca cb : Color) :
    mix_colors ca cb = mix_colors_spec ca cb := by
  unfold mix_colors mix_colors_spec
  have hh : ∀ a b : ℚ, a + b * (1/2) = a + b / 2 := fun a b => by ring
  have hs : ∀ a b : ℚ, (a + b) / 2 + (2/10) * |a - b| =
      (a + b) / 2 + (20/100) * |a - b| := fun a b => by norm_num
  have hv : ∀ a b : ℚ, max a b * (9/10) + (a + b) / 2 * (1/10) =
      (90/100) * max a b + (10/100) * ((a + b) / 2) := fun a b => by ring
  simp only [hh, hs, hv]

/-- Claim C7: spit_ball on a state with an empty inventory returns none and
returns the very same state (active set, inventory, layout parameters and
id counter all unchanged). -/
theorem claim_C7_spit_empty (g : GameLogic) (pos : Vec2) (vel : Option Vec2)
    (h : g.inventory = []) : g.spit_ball pos vel = (none, g) :=
  spit_ball_of_empty g pos vel h

/-- Witness for C7 at the freshly initialised state. -/
theorem claim_C7_spit_empty_witness :
    GW0.inventory = [] ∧ GW0.spit_ball ⟨3, 3⟩ none = (none, GW0) :=
  ⟨rfl, claim_C7_spit_empty GW0 ⟨3, 3⟩ none rfl⟩

/-- Claim C10: for every state (hence every construction height and strip
height, including a strip at least as tall as the window), the play-area
height used as the y wrap modulus is clamped to at least 1, so the y wrap
in _move_ball never divides by zero or a negative number and always lands
in [0, play-area height). -/
theorem claim_C10_play_area_height (g : GameLogic) (b : Ball) (dt : ℚ) :
    1 ≤ g.play_area_height ∧
    0 ≤ (g.move_ball b dt).position.y ∧
    (g.move_ball b dt).position.y < g.play_area_height := by
  have h1 := one_le_play_area_height g
  have hpos : (0 : ℚ) < g.play_area_height := lt_of_lt_of_le one_pos h1
  refine ⟨h1, ?_, ?_⟩
  · rw [move_ball_position]
    exact pymod_nonneg _ _ hpos
  · rw [move_ball_position]
    exact pymod_lt _ _ hpos

/-- Claim C4 (amended): when a delete zone is configured, a ball with zero
velocity whose position lies inside the zone's inclusive bounds and inside
the wrap range [0, width) x [0, play-area height) — so that the wrap leaves
it in place — is removed from the active set by a single update call, in
every reachable state; and with refill_on_remove enabled the active count
after that same update call equals its value before it.  (The original
claim, without the wrap-range condition, is refuted by
claim_C4_delete_zone_counterexample: a resting ball inside a zone lying
outside the wrap range is wrapped away from the zone and survives.) -/
theorem claim_C4_delete_zone (g : GameLogic) (z : DeleteZone) (b : Ball)
    (dt : ℚ) (hreach : Reachable g) (hz : g.delete_zone = some z)
    (hb : b ∈ g.balls) (hv : b.velocity = ⟨0, 0⟩)
    (hx0 : 0 ≤ b.position.x) (hx1 : b.position.x < g.width)
    (hy0 : 0 ≤ b.position.y) (hy1 : b.position.y < g.play_area_height)
    (hin : z.contains b.position = true) :
    b.id ∉ idsOf (g.update dt).balls ∧
    (g.refill_on_remove = true → (g.update dt).balls.length = g.balls.length) := by
  have hgood := reachable_good g hreach
  have hhit : g.hitBall dt b = true := by
    unfold GameLogic.hitBall
    rw [hz, move_ball_rest_in_range g b dt hv hx0 hx1 hy0 hy1]
    exact hin
  exact ⟨update_removes_hit_ball g dt b hb hgood hhit,
    fun hr => update_length_of_refill g dt hr hgood.1.of_append_left⟩

/-- Counterexample to C4 as stated: a resting ball at (250,50), inside the
configured zone [200,300]x[0,100] but outside the wrap range of a width-100
field, is still active after update (its position was wrapped to (50,50),
outside the zone). -/
theorem claim_C4_delete_zone_counterexample :
    GZout1.delete_zone = some ⟨200, 0, 300, 100⟩ ∧
    (∃ b ∈ GZout1.balls, b.velocity = ⟨0, 0⟩ ∧
      DeleteZone.contains ⟨200, 0, 300, 100⟩ b.position = true ∧
      b.id ∈ idsOf (GZout1.update 1).balls) := by
  refine ⟨rfl, BZout, List.mem_cons_self _ _, rfl, ?_, ?_⟩
  · norm_num [DeleteZone.contains, BZout, GZout, GameLogic.spawn_ball, GameLogic.init]
  · norm_num [GZout1, GZout, BZout, GameLogic.update, GameLogic.update_step,
      GameLogic.spawn_ball, GameLogic.init, GameLogic.move_ball, GameLogic.hitBall,
      GameLogic.play_area_height, DeleteZone.contains, pymod, Vec2.add, Vec2.smul,
      applyColorMixing, applyColorMixingAux, mixInner, are_touching, Vec2.sub,
      lenTaxi, idsOf, GameLogic.spawn_replacement]

/-- Witness for the amended C4 at a concrete reachable state with the zone
inside the play area and refill enabled. -/
theorem claim_C4_delete_zone_witness :
    (BZin ∈ GZin1.balls ∧ BZin.velocity = ⟨0, 0⟩ ∧
      DeleteZone.contains ⟨20, 20, 40, 40⟩ BZin.position = true) ∧
    (BZin.id ∉ idsOf (GZin1.update 1).balls ∧
      (GZin1.refill_on_remove = true →
        (GZin1.update 1).balls.length = GZin1.balls.length)) :=
  ⟨⟨List.mem_cons_self _ _, rfl,
      by norm_num [DeleteZone.contains, BZin, GZin, GameLogic.spawn_ball, GameLogic.init]⟩,
    claim_C4_delete_zone GZin1 ⟨20, 20, 40, 40⟩ BZin 1
      (Reachable.spawn GZin ⟨30, 30⟩ ⟨0, 0⟩ 5 ((1 : ℚ), (0 : ℚ), (0 : ℚ))
        (Reachable.init 100 100 (some ⟨20, 20, 40, 40⟩) 0 48 16 true lenTaxi
          specsW randsW))
      rfl (List.mem_cons_self _ _) rfl (by decide) (by decide)
      (by decide)
      (by norm_num [GameLogic.play_area_height, BZin, GZin1, GZin,
        GameLogic.spawn_ball, GameLogic.init])
      (by norm_num [DeleteZone.contains, BZin, GZin, GameLogic.spawn_ball,
        GameLogic.init])⟩

/-- Claim C5: the inventory is a stack — after capturing ball A and then
ball B via suck_ball, two successive spit_ball calls eject a ball with B's
id first and then a ball with A's id (last captured, first ejected; ids are
retained through capture and ejection). -/
theorem claim_C5_stack_order (g g1 g2 : GameLogic) (p1 p2 q1 q2 : Vec2)
    (r1 r2 : ℚ) (w1 w2 : Option Vec2) (A B : Ball)
    (h1 : g.suck_ball p1 r1 = (some A, g1))
    (h2 : g1.suck_ball p2 r2 = (some B, g2)) :
    ∃ B2 g3 A2 g4, g2.spit_ball q1 w1 = (some B2, g3) ∧ B2.id = B.id ∧
      g3.spit_ball q2 w2 = (some A2, g4) ∧ A2.id = A.id := by
  cases hf1 : g.find_ball p1 r1 with
  | none =>
    rw [suck_ball_of_find_none g p1 r1 hf1] at h1
    have : (none : Option Ball) = some A := congrArg Prod.fst h1
    exact Option.noConfusion this
  | some t1 =>
    have hA : A.id = t1.id := by
      obtain ⟨a, ha, haid⟩ := suck_fst_id g p1 r1 t1 hf1
      rw [h1] at ha
      have h3 : some A = some a := ha
      have h4 : A = a := by injection h3
      rw [h4]
      exact haid
    have hids1 : idsOf g1.inventory = idsOf g.inventory ++ [A.id] := by
      have h5 := suck_inventory_ids g p1 r1 t1 hf1
      rw [h1] at h5
      rw [hA]
      exact h5
    cases hf2 : g1.find_ball p2 r2 with
    | none =>
      rw [suck_ball_of_find_none g1 p2 r2 hf2] at h2
      have : (none : Option Ball) = some B := congrArg Prod.fst h2
      exact Option.noConfusion this
    | some t2 =>
      have hB : B.id = t2.id := by
        obtain ⟨a, ha, haid⟩ := suck_fst_id g1 p2 r2 t2 hf2
        rw [h2] at ha
        have h3 : some B = some a := ha
        have h4 : B = a := by injection h3
        rw [h4]
        exact haid
      have hids2 : idsOf g2.inventory = (idsOf g.inventory ++ [A.id]) ++ [B.id] := by
        have h5 := suck_inventory_ids g1 p2 r2 t2 hf2
        rw [h2] at h5
        rw [hB, ← hids1]
        exact h5
      obtain ⟨B2, g3, hspit1, hB2, hids3⟩ :=
        spit_of_ids_last g2 q1 w1 B.id (by rw [hids2]; exact List.getLast?_concat _)
      have hids3b : idsOf g3.inventory = idsOf g.inventory ++ [A.id] := by
        rw [hids3, hids2, List.dropLast_concat]
      obtain ⟨A2, g4, hspit2, hA2, _⟩ :=
        spit_of_ids_last g3 q2 w2 A.id (by rw [hids3b]; exact List.getLast?_concat _)
      exact ⟨B2, g3, A2, g4, hspit1, hB2, hspit2, hA2⟩

/-- A layout refresh with a non-positive strip height is a no-op. -/
theorem refresh_of_nonpos (g : GameLogic) (h : g.inventory_strip_height ≤ 0) :
    g.refresh_inventory_layout = g := by
  unfold GameLogic.refresh_inventory_layout
  rw [if_pos h]

/-- The selection made by the first capture of the concrete stack-order
run. -/
theorem GS1_find_eq : GS1.find_ball ⟨0, 0⟩ 5 = some A5 := by
  rw [find_ball_eq]
  have hflt : (GS1.balls.map (fun b => (b, surface_distance GS1 ⟨0, 0⟩ b))).filter
      (fun c => decide (c.2 ≤ 5)) = [(A5, surface_distance GS1 ⟨0, 0⟩ A5)] := by
    show (List.filter (fun c => decide (c.2 ≤ 5))
      (List.map (fun b => (b, surface_distance GS1 ⟨0, 0⟩ b)) [A5, B5])) = _
    rw [List.map_cons, List.map_cons, List.map_nil]
    rw [List.filter_cons, List.filter_cons, List.filter_nil]
    rw [show (decide (surface_distance GS1 ⟨0, 0⟩ A5 ≤ 5)) = true from by
      norm_num [surface_distance, lenTaxi, Vec2.sub, A5, GS1, GW0,
        GameLogic.spawn_ball, GameLogic.init]]
    rw [show (decide (surface_distance GS1 ⟨0, 0⟩ B5 ≤ 5)) = false from by
      norm_num [surface_distance, lenTaxi, Vec2.sub, B5, GS1, GW0,
        GameLogic.spawn_ball, GameLogic.init]]
    simp
  rw [hflt]
  rfl

/-- First capture of the concrete stack-order run. -/
theorem GS1_suck_eq : GS1.suck_ball ⟨0, 0⟩ 5 = (some A5, GS2) := by
  have hstrip1 : (suckMid GS1 A5).inventory_strip_height ≤ 0 := by decide
  have h1fst : (GS1.suck_ball ⟨0, 0⟩ 5).1 = some A5 := by
    rw [suck_ball_of_find_some GS1 ⟨0, 0⟩ 5 A5 GS1_find_eq]
    show ((suckMid GS1 A5).refresh_inventory_layout.inventory.getLast?) = some A5
    rw [refresh_of_nonpos _ hstrip1]
    show (GS1.inventory ++ [{ A5 with stored_velocity := A5.velocity }]).getLast? = some A5
    exact List.getLast?_concat _
  have hsplit : GS1.suck_ball ⟨0, 0⟩ 5 =
      ((GS1.suck_ball ⟨0, 0⟩ 5).1, (GS1.suck_ball ⟨0, 0⟩ 5).2) := rfl
  rw [hsplit, h1fst]
  rfl

/-- The state after the first capture is the plain ownership transfer (the
strip is absent and refill is off, so the refresh and the replacement spawn
do nothing). -/
theorem GS2_eq : GS2 = suckMid GS1 A5 := by
  have hstrip1 : (suckMid GS1 A5).inventory_strip_height ≤ 0 := by decide
  show (GS1.suck_ball ⟨0, 0⟩ 5).2 = suckMid GS1 A5
  rw [suck_ball_of_find_some GS1 ⟨0, 0⟩ 5 A5 GS1_find_eq]
  show ((suckMid GS1 A5).refresh_inventory_layout.spawn_replacement) = suckMid GS1 A5
  rw [refresh_of_nonpos _ hstrip1, spawn_replacement_of_not_refill _ rfl]

/-- The selection made by the second capture of the concrete stack-order
run. -/
theorem GS2_find_eq : GS2.find_ball ⟨50, 0⟩ 5 = some B5 := by
  rw [GS2_eq, find_ball_eq]
  have hbe : (suckMid GS1 A5).balls = [B5] := by decide
  rw [hbe]
  have hflt : (([B5] : List Ball).map
      (fun b => (b, surface_distance (suckMid GS1 A5) ⟨50, 0⟩ b))).filter
      (fun c => decide (c.2 ≤ 5)) =
      [(B5, surface_distance (suckMid GS1 A5) ⟨50, 0⟩ B5)] := by
    rw [List.map_cons, List.map_nil, List.filter_cons, List.filter_nil]
    rw [show (decide (surface_distance (suckMid GS1 A5) ⟨50, 0⟩ B5 ≤ 5)) = true from by
      norm_num [surface_distance, lenTaxi, Vec2.sub, B5, suckMid, GS1, GW0,
        GameLogic.spawn_ball, GameLogic.init]]
    simp
  rw [hflt]
  rfl

/-- Second capture of the concrete stack-order run. -/
theorem GS2_suck_eq : GS2.suck_ball ⟨50, 0⟩ 5 = (some B5, GS3) := by
  have hstrip2 : (suckMid GS2 B5).inventory_strip_height ≤ 0 := by
    show GS2.inventory_strip_height ≤ 0
    rw [GS2_eq]
    decide
  have h2fst : (GS2.suck_ball ⟨50, 0⟩ 5).1 = some B5 := by
    rw [suck_ball_of_find_some GS2 ⟨50, 0⟩ 5 B5 GS2_find_eq]
    show ((suckMid GS2 B5).refresh_inventory_layout.inventory.getLast?) = some B5
    rw [refresh_of_nonpos _ hstrip2]
    show (GS2.inventory ++ [{ B5 with stored_velocity := B5.velocity }]).getLast? = some B5
    exact List.getLast?_concat _
  have hsplit : GS2.suck_ball ⟨50, 0⟩ 5 =
      ((GS2.suck_ball ⟨50, 0⟩ 5).1, (GS2.suck_ball ⟨50, 0⟩ 5).2) := rfl
  rw [hsplit, h2fst]
  rfl

/-- Witness for C5 on a concrete two-ball run. -/
theorem claim_C5_stack_order_witness :
    (GS1.suck_ball ⟨0, 0⟩ 5 = (some A5, GS2) ∧
      GS2.suck_ball ⟨50, 0⟩ 5 = (some B5, GS3)) ∧
    (∃ B2 g3 A2 g4, GS3.spit_ball ⟨10, 10⟩ (some ⟨2, 0⟩) = (some B2, g3) ∧
      B2.id = B5.id ∧
      g3.spit_ball ⟨20, 20⟩ (some ⟨2, 0⟩) = (some A2, g4) ∧ A2.id = A5.id) :=
  ⟨⟨GS1_suck_eq, GS2_suck_eq⟩,
    claim_C5_stack_order GS1 GS2 GS3 ⟨0, 0⟩ ⟨50, 0⟩ ⟨10, 10⟩ ⟨20, 20⟩ 5 5
      (some ⟨2, 0⟩) (some ⟨2, 0⟩) A5 B5 GS1_suck_eq GS2_suck_eq⟩

/-- Claim C6: suck_ball selects the active ball of minimal surface distance
(center distance to the pointer minus the ball's own radius) among the
active balls whose surface distance is at most the influence radius, ties
broken by first position in active-list order (the returned parked ball
carries the selected ball's id); and when no active ball is within range it
returns none and changes no state. -/
theorem claim_C6_selection (g : GameLogic) (pointer : Vec2) (r : ℚ) :
    (∀ t g2, g.suck_ball pointer r = (some t, g2) →
      ∃ sel la lb, g.balls = la ++ sel :: lb ∧ t.id = sel.id ∧
        surface_distance g pointer sel ≤ r ∧
        (∀ c ∈ g.balls, surface_distance g pointer c ≤ r →
          surface_distance g pointer sel ≤ surface_distance g pointer c) ∧
        (∀ c ∈ la, surface_distance g pointer c ≤ r →
          surface_distance g pointer sel < surface_distance g pointer c)) ∧
    ((∀ c ∈ g.balls, r < surface_distance g pointer c) →
      g.suck_ball pointer r = (none, g)) := by
  constructor
  · intro t g2 h
    cases hf : g.find_ball pointer r with
    | none =>
      rw [suck_ball_of_find_none g pointer r hf] at h
      have h2 : (none : Option Ball) = some t := congrArg Prod.fst h
      exact Option.noConfusion h2
    | some sel =>
      obtain ⟨la, lb, heq, hle, hmin, hstrict⟩ := find_ball_some_spec g pointer r sel hf
      have htid : t.id = sel.id := by
        obtain ⟨a, ha, haid⟩ := suck_fst_id g pointer r sel hf
        rw [h] at ha
        have h3 : some t = some a := ha
        have h4 : t = a := by injection h3
        rw [h4]
        exact haid
      exact ⟨sel, la, lb, heq, htid, hle, hmin, hstrict⟩
  · intro hall
    exact suck_ball_of_find_none g pointer r
      (find_ball_none g pointer r (fun b hb => not_le.mpr (hall b hb)))

/-- Witness for C6 at a concrete state with no ball in range. -/
theorem claim_C6_selection_witness :
    (∀ c ∈ GW0.balls, (5 : ℚ) < surface_distance GW0 ⟨0, 0⟩ c) ∧
    GW0.suck_ball ⟨0, 0⟩ 5 = (none, GW0) :=
  ⟨by decide, (claim_C6_selection GW0 ⟨0, 0⟩ 5).2 (by decide)⟩

/-- Claim C8 (amended): in every reachable state whose inventory strip
height is positive, every stored ball has zero velocity and sits exactly at
the slot position assigned to its inventory index by the layout
computation.  (The original claim, with the strip height allowed to be
zero, is refuted by claim_C8_inventory_parked_counterexample: with a zero
strip height the layout refresh is a no-op, so a captured ball keeps its
pre-capture velocity and position.) -/
theorem claim_C8_inventory_parked (g : GameLogic) (h : Reachable g)
    (hstrip : 0 < g.inventory_strip_height) : InventoryParked g :=
  reachable_parked g h hstrip

/-- The selection of the capture leading to `GW2`. -/
theorem GW1_find_eq : GW1.find_ball ⟨10, 10⟩ 10 = some BW := by
  rw [find_ball_eq]
  have hflt : (GW1.balls.map (fun b => (b, surface_distance GW1 ⟨10, 10⟩ b))).filter
      (fun c => decide (c.2 ≤ 10)) = [(BW, surface_distance GW1 ⟨10, 10⟩ BW)] := by
    show (List.filter (fun c => decide (c.2 ≤ 10))
      (List.map (fun b => (b, surface_distance GW1 ⟨10, 10⟩ b)) [BW])) = _
    rw [List.map_cons, List.map_nil, List.filter_cons, List.filter_nil]
    rw [show (decide (surface_distance GW1 ⟨10, 10⟩ BW ≤ 10)) = true from by
      norm_num [surface_distance, lenTaxi, Vec2.sub, BW, GW1, GW0,
        GameLogic.spawn_ball, GameLogic.init]]
    simp
  rw [hflt]
  rfl

/-- With a zero strip and refill off, the capture leading to `GW2` is the
plain ownership transfer. -/
theorem GW2_eq : GW2 = suckMid GW1 BW := by
  have hstrip : (suckMid GW1 BW).inventory_strip_height ≤ 0 := by decide
  show (GW1.suck_ball ⟨10, 10⟩ 10).2 = suckMid GW1 BW
  rw [suck_ball_of_find_some GW1 ⟨10, 10⟩ 10 BW GW1_find_eq]
  show ((suckMid GW1 BW).refresh_inventory_layout.spawn_replacement) = suckMid GW1 BW
  rw [refresh_of_nonpos _ hstrip, spawn_replacement_of_not_refill _ rfl]

/-- Counterexample to C8 as stated: the reachable state `GW2` (strip height
zero) stores a ball that still carries its pre-capture velocity (3,4). -/
theorem claim_C8_inventory_parked_counterexample :
    Reachable GW2 ∧ ¬ InventoryParked GW2 := by
  constructor
  · exact Reachable.suck GW1 ⟨10, 10⟩ 10
      (Reachable.spawn GW0 ⟨10, 10⟩ ⟨3, 4⟩ 5 ((1 : ℚ), (0 : ℚ), (0 : ℚ))
        (Reachable.init 100 100 none 0 48 16 false lenTaxi specsW randsW))
  · intro h
    have hmem : GW2.inventory[0]? = some BW := by
      rw [GW2_eq]
      decide
    obtain ⟨hv, _⟩ := h 0 BW hmem
    exact absurd hv (by decide)

/-- Witness for the amended C8 at a concrete reachable state with a strip
of height 50 holding one captured ball. -/
theorem claim_C8_inventory_parked_witness :
    0 < GP2.inventory_strip_height ∧ InventoryParked GP2 := by
  have hstrip : 0 < GP2.inventory_strip_height := by
    show 0 < (GP1.suck_ball ⟨10, 10⟩ 10).2.inventory_strip_height
    rw [← (suck_cfg GP1 ⟨10, 10⟩ 10).strip]
    decide
  exact ⟨hstrip, claim_C8_inventory_parked GP2
    (Reachable.suck GP1 ⟨10, 10⟩ 10
      (Reachable.spawn GP0 ⟨10, 10⟩ ⟨3, 4⟩ 5 ((1 : ℚ), (0 : ℚ), (0 : ℚ))
        (Reachable.init 100 100 none 50 48 16 false lenTaxi specsW randsW))) hstrip⟩

/-- Claim C9 (amended): for dt = 0 the movement integration adds zero
displacement, so a ball whose position already lies inside the wrap range
[0, width) x [0, play-area height) is left exactly in place by _move_ball.
(The original claim — all dt ≤ 0 and all positions — is refuted by
claim_C9_zero_dt_counterexample: a negative dt moves balls backwards, and a
dt of 0 still wraps an out-of-range position.) -/
theorem claim_C9_zero_dt (g : GameLogic) (b : Ball)
    (hx0 : 0 ≤ b.position.x) (hx1 : b.position.x < g.width)
    (hy0 : 0 ≤ b.position.y) (hy1 : b.position.y < g.play_area_height) :
    (g.move_ball b 0).position = b.position :=
  move_ball_zero_dt_in_range g b hx0 hx1 hy0 hy1

/-- Counterexample to C9 as stated: with dt = -1 the single active ball of
`GM1` moves (backwards, wrapping to x = 9), and even with dt = 0 a ball
resting out of range at (15,0) is wrapped to (5,0). -/
theorem claim_C9_zero_dt_counterexample :
    (GM1.update (-1)).balls.map Ball.position ≠ GM1.balls.map Ball.position ∧
    (GM0.move_ball
      { id := 7, position := ⟨15, 0⟩, velocity := ⟨0, 0⟩, radius := 1
        color := ((1 : ℚ), (0 : ℚ), (0 : ℚ)), stored_velocity := ⟨0, 0⟩ } 0).position ≠
      ⟨15, 0⟩ := by
  constructor
  · norm_num [GM1, GM0, GameLogic.update, GameLogic.update_step, GameLogic.spawn_ball,
      GameLogic.init, GameLogic.move_ball, GameLogic.hitBall, GameLogic.play_area_height,
      pymod, Vec2.add, Vec2.smul, applyColorMixing, applyColorMixingAux, mixInner,
      are_touching, Vec2.sub, lenTaxi, GameLogic.spawn_replacement, Vec2.mk.injEq]
  · norm_num [GM0, GameLogic.init, GameLogic.move_ball, GameLogic.play_area_height,
      pymod, Vec2.add, Vec2.smul, Vec2.mk.injEq]

/-- Witness for the amended C9: the in-range resting case of `GM1`. -/
theorem claim_C9_zero_dt_witness :
    (0 ≤ BM.position.x ∧ BM.position.x < GM1.width ∧ 0 ≤ BM.position.y ∧
      BM.position.y < GM1.play_area_height) ∧
    (GM1.move_ball BM 0).position = BM.position := by
  have hy1 : BM.position.y < GM1.play_area_height := by
    norm_num [BM, GM0, GM1, GameLogic.spawn_ball, GameLogic.init,
      GameLogic.play_area_height]
  exact ⟨⟨by decide, by decide, by decide, hy1⟩,
    claim_C9_zero_dt GM1 BM (by decide) (by decide) (by decide) hy1⟩
